import Mathlib

/-!
WireGuard exporter: the collection cycle of `src/main.go`

A shallow embedding of `collector.Collect` (src/main.go, lines 78-177).

Modelling conventions.

* A Go `string` is a sequence of bytes. It is modelled by the sequence of steps in which
  Go decodes it as UTF-8 (`Str`, a list of `GoChar`): each step is a correctly encoded
  character, or one byte that belongs to no correct encoding (Go decodes such a byte as
  `utf8.RuneError` of width 1). An ASCII byte is always a character of its own, so the
  byte-level functions used with ASCII arguments only (`strings.Contains` with the four
  keywords, `strings.Split` on `=` and on newline, appending `=`) agree with the functions
  on `Str`, and two Go strings are equal exactly when their decodings are. A list in which
  consecutive stray bytes would form a correct encoding stands for no Go string.
* The configuration file is given as the sequence of lines that `scanner.Scan()` delivers,
  or `none` when `os.Open` fails.
* A run-time panic is an explicit result: the builder returns `Except Panic _`, and a
  collection cycle returns a `Run` holding the metrics sent on the channel so far together
  with the panic, if any, that ended the call.
* `prometheus.MustNewConstMetric` is modelled with the two checks of the library's
  `validateLabelValues`: the number of label values, and that each label value is valid
  UTF-8; it panics when one fails. The four descriptors of `newCollector` are well formed,
  so the descriptor itself never carries an error.
* `strconv.ParseFloat`, the conversion `float64(n)` and the type `float64` itself are the
  fields of a `Float64Ops` parameter; nothing is assumed about them.
* `log.Println` and `log.Printf` only write to the process log and are left out.
* `count` is a Go `int`; it counts lines of one command output and is modelled by `Nat`.
-/

namespace WgExporter

/-- One step of Go's UTF-8 decoding of a string: a correctly encoded character, or a byte
that is part of no correct encoding; `raw b` is the byte `0x80 + b`. -/
inductive GoChar where
  | chr (c : Char)
  | raw (b : Fin 128)
deriving DecidableEq

open GoChar (chr raw)

/-- A Go string, as the sequence of its decoding steps. -/
abbrev Str := List GoChar

/-- The Go string literal with the given text. -/
def str (s : String) : Str := s.toList.map chr

/-! ## Library functions used by `Collect` -/

/-- Go `unicode.IsSpace` on a decoding step: the Latin-1 spaces and the characters with
the Unicode White_Space property; a stray byte decodes as `utf8.RuneError`, which is no
space. -/
def isSpace : GoChar → Bool
  | raw _ => false
  | chr c =>
    let n := c.toNat
    n == 0x09 || n == 0x0A || n == 0x0B || n == 0x0C || n == 0x0D || n == 0x20 ||
    n == 0x85 || n == 0xA0 || n == 0x1680 || (0x2000 ≤ n && n ≤ 0x200A) ||
    n == 0x2028 || n == 0x2029 || n == 0x202F || n == 0x205F || n == 0x3000

/-- Go `utf8.ValidString`: no byte of the string is outside a correct encoding. -/
def ValidString (s : Str) : Bool :=
  s.all (fun c => match c with
    | chr _ => true
    | raw _ => false)

/-- Go `strings.HasPrefix(s, p)`. -/
def HasPrefix : Str → Str → Bool
  | _, [] => true
  | [], _ :: _ => false
  | c :: s, d :: p => c == d && HasPrefix s p

/-- Go `strings.Contains(s, substr)`: `substr` occurs in `s` as a contiguous block. -/
def Contains : Str → Str → Bool
  | [], sub => HasPrefix [] sub
  | c :: s, sub => HasPrefix (c :: s) sub || Contains s sub

/-- Go `strings.Split(s, sep)` for a one-character separator: the pieces of `s` between
consecutive occurrences of `sep`. The result always has at least one element. -/
def Split (sep : GoChar) : Str → List Str
  | [] => [[]]
  | c :: s =>
    if c = sep then [] :: Split sep s
    else
      match Split sep s with
      | [] => [[c]]
      | p :: ps => (c :: p) :: ps

/-- Go `strings.TrimSpace`: drop the leading and the trailing white space. -/
def TrimSpace (s : Str) : Str :=
  ((s.dropWhile isSpace).reverse.dropWhile isSpace).reverse

/-- Go `strings.Fields`: the maximal runs of non-space characters, in order. -/
def Fields : Str → List Str
  | [] => []
  | c :: s =>
    if isSpace c then Fields s
    else
      match s with
      | [] => [[c]]
      | d :: _ =>
        if isSpace d then [c] :: Fields s
        else
          match Fields s with
          | [] => [[c]]
          | f :: fs => (c :: f) :: fs

/-! ## Data model -/

/-- The `peer` struct of src/main.go (lines 29-32). -/
structure peer where
  peerName : Str
  peerKey : Str
deriving DecidableEq

/-- A Go `map[string]peer`: a list of entries with pairwise distinct keys. -/
abbrev Directory := List (Str × peer)

/-- Map read `m[k]`: the entry stored under `k`, or the zero value of `peer` when absent. -/
def Directory.get : Directory → Str → peer
  | [], _ => ⟨[], []⟩
  | (k', v) :: d, k => if k' = k then v else Directory.get d k

/-- Map write `m[k] = v`: replaces the entry under `k` when there is one, adds it otherwise. -/
def Directory.set : Directory → Str → peer → Directory
  | [], k, v => [(k, v)]
  | (k', v') :: d, k, v => if k' = k then (k, v) :: d else (k', v') :: Directory.set d k v

deriving instance DecidableEq for Except

/-- The ways a collection cycle can panic. -/
inductive Panic where
  /-- Panic raised by `panic(err)` after a failed `os.Open` (line 82). -/
  | openError
  /-- Go run-time error `index out of range [i] with length len`. -/
  | indexOutOfRange (i len : Nat)
  /-- Panic of `MustNewConstMetric`: `expected` label values wanted, `got` given. -/
  | inconsistentCardinality (expected got : Nat)
  /-- Panic of `MustNewConstMetric`: the label value `v` is not valid UTF-8. -/
  | invalidLabelValue (v : Str)
deriving DecidableEq

/-- Slice indexing `xs[i]`, which panics when `i` is out of range. -/
def index {α : Type} (xs : List α) (i : Nat) : Except Panic α :=
  match xs[i]? with
  | some x => .ok x
  | none => .error (.indexOutOfRange i xs.length)

/-- The section marker tested at line 92. -/
def kwPeer : Str := str "[Peer]"

/-- The key tested at line 95. -/
def kwAllowedIPs : Str := str "AllowedIPs"

/-- The key tested at line 99. -/
def kwFriendlyName : Str := str "friendly_name"

/-- The key tested at line 102. -/
def kwPublicKey : Str := str "PublicKey"

/-- The local variables of the configuration loop (lines 85-89). -/
structure BuilderState where
  inBlock : Bool
  pubKey : Str
  peername : Str
  peerNames : Directory
deriving DecidableEq

/-- The values of the locals before the first line is read (lines 85-89). -/
def BuilderState.init : BuilderState :=
  { inBlock := false, pubKey := [], peername := [], peerNames := [] }

/-- One pass through the body of the configuration loop (lines 91-106). -/
def stepLine (s : BuilderState) (line : Str) : Except Panic BuilderState :=
  if Contains line kwPeer && !s.inBlock then
    .ok { s with inBlock := true }
  else if Contains line kwAllowedIPs then
    .ok { s with inBlock := false, peername := [] }
  else if Contains line kwFriendlyName then
    match index (Split (chr '=') line) 1 with
    | .error e => .error e
    | .ok v => .ok { s with peername := TrimSpace v }
  else if Contains line kwPublicKey then
    match index (Split (chr '=') line) 1 with
    | .error e => .error e
    | .ok v =>
      let pubKey := TrimSpace v ++ str "="
      .ok { s with pubKey := pubKey,
                   peerNames := s.peerNames.set pubKey
                     { peerName := s.peername, peerKey := pubKey } }
  else
    .ok s

/-- The configuration loop `for scanner.Scan() { ... }` (lines 90-107), from state `s`. -/
def runLines (s : BuilderState) : List Str → Except Panic BuilderState
  | [] => .ok s
  | line :: rest =>
    match stepLine s line with
    | .error e => .error e
    | .ok s' => runLines s' rest

/-- The Peer Directory Builder (lines 85-107): the map `peerNames` after the last line. -/
def buildDirectory (lines : List Str) : Except Panic Directory :=
  match runLines BuilderState.init lines with
  | .error e => .error e
  | .ok s => .ok s.peerNames

/-! ## The Status Joiner -/

/-- The part of Go's `float64` that `Collect` uses. -/
structure Float64Ops (F : Type) where
  /-- Go `strconv.ParseFloat(s, 64)`: `some v` when the returned error is nil, `none`
  otherwise. -/
  ParseFloat : Str → Option F
  /-- The conversion `float64(n)`, also the meaning of an integer constant used as a
  `float64`. -/
  ofInt : Nat → F

/-- The four metric descriptors created by `newCollector` (lines 41-69). -/
inductive Desc where
  | bytesReceived
  | bytesSent
  | lasthandshake
  | counterconfig
deriving DecidableEq

/-- The two `prometheus.ValueType` constants in use. -/
inductive ValueType where
  | CounterValue
  | GaugeValue
deriving DecidableEq

/-- A constant metric, as built by `prometheus.MustNewConstMetric`: descriptor, value type,
value, and the label values in the order of the descriptor's label names. -/
structure Metric (F : Type) where
  desc : Desc
  valueType : ValueType
  value : F
  labelValues : List Str
deriving DecidableEq

/-- The label names each descriptor is created with in `newCollector` (lines 44-67). -/
def Desc.variableLabels : Desc → List Str
  | .bytesReceived => [str "interface", str "public_key", str "name"]
  | .bytesSent => [str "interface", str "public_key", str "name"]
  | .lasthandshake => [str "interface", str "public_key", str "name"]
  | .counterconfig => [str "interface"]

/-- The library function `prometheus.MustNewConstMetric(desc, valueType, value,
labelValues...)`: it panics when the number of label values differs from the number of
label names of the descriptor, or when a label value is not valid UTF-8 (the first such
value is reported); otherwise it returns the metric. -/
def MustNewConstMetric {F : Type} (desc : Desc) (valueType : ValueType) (value : F)
    (labelValues : List Str) : Except Panic (Metric F) :=
  if labelValues.length ≠ desc.variableLabels.length then
    .error (.inconsistentCardinality desc.variableLabels.length labelValues.length)
  else
    match labelValues.find? (fun v => !ValidString v) with
    | some v => .error (.invalidLabelValue v)
    | none => .ok { desc := desc, valueType := valueType, value := value,
                    labelValues := labelValues }

/-- The result of the external command `wg show <interface> dump` (lines 109-110):
the combined output and whether `err != nil`. -/
structure CmdResult where
  output : Str
  failed : Bool
deriving DecidableEq

/-- What one call of `Collect` did: the metrics sent on `ch`, in order, and the panic
that ended the call, if any. -/
structure Run (F : Type) where
  sent : List (Metric F)
  panic : Option Panic
deriving DecidableEq

/-- The pattern `v, err := strconv.ParseFloat(text, 64); if err != nil { v = 0 }`
(lines 126-130, 140-144, 145-149). -/
def parseOrZero {F : Type} (fl : Float64Ops F) (text : Str) : F :=
  match fl.ParseFloat text with
  | some v => v
  | none => fl.ofInt 0

/-- The body of the dump loop after `count++` (lines 123-169): the metrics sent for one
line, and the panic that ended the body, if any: an out-of-range field access, or a
metric that could not be built. -/
def processLine {F : Type} (fl : Float64Ops F) (Interface : Str) (peerNames : Directory)
    (line : Str) : Run F :=
  let fields := Fields line
  let interfaceName := Interface
  match index fields 0 with
  | .error e => { sent := [], panic := some e }
  | .ok publicKey =>
    match index fields 4 with
    | .error e => { sent := [], panic := some e }
    | .ok f4 =>
      let lasthandshake := parseOrZero fl f4
      let user_name := (peerNames.get publicKey).peerName
      match index fields 5 with
      | .error e => { sent := [], panic := some e }
      | .ok f5 =>
        let bytesReceived := parseOrZero fl f5
        match index fields 6 with
        | .error e => { sent := [], panic := some e }
        | .ok f6 =>
          let bytesSent := parseOrZero fl f6
          match MustNewConstMetric .bytesReceived .CounterValue bytesReceived
              [interfaceName, publicKey, user_name] with
          | .error e => { sent := [], panic := some e }
          | .ok m1 =>
            match MustNewConstMetric .bytesSent .CounterValue bytesSent
                [interfaceName, publicKey, user_name] with
            | .error e => { sent := [m1], panic := some e }
            | .ok m2 =>
              match MustNewConstMetric .lasthandshake .GaugeValue lasthandshake
                  [interfaceName, publicKey, user_name] with
              | .error e => { sent := [m1, m2], panic := some e }
              | .ok m3 => { sent := [m1, m2, m3], panic := none }

/-- The state of the dump loop when it stops: the counter, the metrics sent, and the panic
that stopped it, if any. -/
structure LoopResult (F : Type) where
  count : Nat
  sent : List (Metric F)
  panic : Option Panic
deriving DecidableEq

/-- The dump loop `for _, line := range dump[1:] { ... }` (lines 118-170), run over the
lines it ranges over, starting from `count = 0`. -/
def rangeLoop {F : Type} (fl : Float64Ops F) (Interface : Str) (peerNames : Directory) :
    List Str → LoopResult F
  | [] => { count := 0, sent := [], panic := none }
  | line :: rest =>
    if line = [] then rangeLoop fl Interface peerNames rest
    else
      let body := processLine fl Interface peerNames line
      match body.panic with
      | some e => { count := 1, sent := body.sent, panic := some e }
      | none =>
        let r := rangeLoop fl Interface peerNames rest
        { count := r.count + 1, sent := body.sent ++ r.sent, panic := r.panic }

/-- The Status Joiner (lines 109-176): what `Collect` does once `peerNames` is built. -/
def statusJoiner {F : Type} (fl : Float64Ops F) (Interface : Str) (peerNames : Directory)
    (cmd : CmdResult) : Run F :=
  if cmd.failed then
    { sent := [], panic := none }
  else
    let dump := Split (chr '\n') cmd.output
    let r := rangeLoop fl Interface peerNames (dump.drop 1)
    match r.panic with
    | some e => { sent := r.sent, panic := some e }
    | none =>
      match MustNewConstMetric .counterconfig .GaugeValue (fl.ofInt r.count) [Interface] with
      | .error e => { sent := r.sent, panic := some e }
      | .ok m => { sent := r.sent ++ [m], panic := none }

/-- The method `collector.Collect` (lines 78-177). `config` is the content of the
configuration file as the lines the scanner delivers, `none` when the file cannot be
opened; `cmd` is what running the status command returns. -/
def Collect {F : Type} (fl : Float64Ops F) (Interface : Str) (config : Option (List Str))
    (cmd : CmdResult) : Run F :=
  match config with
  | none => { sent := [], panic := some .openError }
  | some lines =>
    match buildDirectory lines with
    | .error e => { sent := [], panic := some e }
    | .ok peerNames => statusJoiner fl Interface peerNames cmd

/-! ## Concrete instances used to evaluate the definitions -/

/-- The value of a string of decimal digits, `none` when some step of the string is not a
digit or the string is empty. -/
def decimalValue (s : Str) : Option Nat :=
  let digit : GoChar → Option Nat := fun c =>
    match c with
    | chr d => if d.isDigit then some (d.toNat - '0'.toNat) else none
    | raw _ => none
  if s = [] then none
  else s.foldl (fun acc c =>
    match acc, digit c with
    | some n, some d => some (10 * n + d)
    | _, _ => none) (some 0)

/-- An instance of `Float64Ops` over the natural numbers: unsigned decimal integers parse to
their value, everything else is a parse error. On these inputs it agrees with
`strconv.ParseFloat` for values below `2^53`. -/
def natOps : Float64Ops Nat where
  ParseFloat := decimalValue
  ofInt := id

/-- The metrics sent for one line of the dump. -/
def lineMetrics {F : Type} (fl : Float64Ops F) (Interface : Str) (peerNames : Directory)
    (line : Str) : List (Metric F) :=
  (processLine fl Interface peerNames line).sent

/-- The lines the dump loop ranges over: `strings.Split(output, "\n")[1:]`. -/
def dataLines (output : Str) : List Str := (Split (chr '\n') output).drop 1

/-- The lines of the dump loop that pass the test `line == ""` (lines 119-121). -/
def nonEmptyLines (lines : List Str) : List Str := lines.filter (fun l => decide (l ≠ []))

/-- Every line the dump loop processes has at least seven fields. -/
def SevenFields (lines : List Str) : Prop :=
  ∀ l ∈ lines, l ≠ [] → 7 ≤ (Fields l).length

/-- The first element of every consecutive group of three. -/
def everyThird {α : Type} : List α → List α
  | a :: _ :: _ :: rest => a :: everyThird rest
  | _ => []

/-- The value of the `public_key` label of a per-peer metric (the second label value). -/
def publicKeyLabel {F : Type} (m : Metric F) : Option Str := m.labelValues[1]?

/-- The label values of the metrics of the lines `lines` are valid UTF-8: the interface
name, the field 0 of each line that has one, and the name the directory holds for it. -/
def validLabels (Interface : Str) (peerNames : Directory) (lines : List Str) : Bool :=
  ValidString Interface &&
    lines.all (fun l =>
      match (Fields l)[0]? with
      | none => true
      | some k => ValidString k && ValidString (peerNames.get k).peerName)

/-- The three metrics sent for a line whose fields 0, 4, 5 and 6 are `k`, `f4`, `f5`, `f6`
(lines 150-169). -/
def peerMetrics {F : Type} (fl : Float64Ops F) (Interface : Str) (peerNames : Directory)
    (k f4 f5 f6 : Str) : List (Metric F) :=
  [ { desc := .bytesReceived, valueType := .CounterValue, value := parseOrZero fl f5,
      labelValues := [Interface, k, (peerNames.get k).peerName] },
    { desc := .bytesSent, valueType := .CounterValue, value := parseOrZero fl f6,
      labelValues := [Interface, k, (peerNames.get k).peerName] },
    { desc := .lasthandshake, valueType := .GaugeValue, value := parseOrZero fl f4,
      labelValues := [Interface, k, (peerNames.get k).peerName] } ]

/-! ## Well-formed configuration files -/

/-- The text of a line after its first `=` (empty when the line has no `=`). -/
def lineValue (l : Str) : Str := (l.dropWhile (fun c => c != (chr '='))).drop 1

/-- The name a `friendly_name` line states: its value, trimmed. -/
def statedName (l : Str) : Str := TrimSpace (lineValue l)

/-- The normalized key of a `PublicKey` line: its value, trimmed, with `=` appended. -/
def statedKey (l : Str) : Str := TrimSpace (lineValue l) ++ str "="

/-- How many of the four keywords a line contains. -/
def keywordCount (l : Str) : Nat :=
  (Contains l kwPeer).toNat + (Contains l kwAllowedIPs).toNat +
    (Contains l kwFriendlyName).toNat + (Contains l kwPublicKey).toNat

/-- A line of the shape `key = value` whose value contains no `=`. -/
def hasValue (l : Str) : Bool := decide ((chr '=') ∈ l) && decide ((chr '=') ∉ lineValue l)

/-- A line that contains none of the four keywords. -/
def isPlain (l : Str) : Bool := decide (keywordCount l = 0)

/-- A line inside a peer block: it contains neither `[Peer]` nor `AllowedIPs`, at most one
keyword, and when it is a `friendly_name` or `PublicKey` line it has a value. -/
def wellFormedBodyLine (l : Str) : Bool :=
  !Contains l kwPeer && !Contains l kwAllowedIPs && decide (keywordCount l ≤ 1) &&
    (!(Contains l kwFriendlyName || Contains l kwPublicKey) || hasValue l)

/-- A peer block: the line that opens it, the lines inside it, the line that closes it, and
the lines that follow up to the next block. -/
structure Block where
  opener : Str
  body : List Str
  closer : Str
  trailer : List Str
deriving DecidableEq

/-- The lines of a block, in file order. -/
def Block.lines (b : Block) : List Str := b.opener :: (b.body ++ b.closer :: b.trailer)

/-- A well-formed block: opened by a line containing `[Peer]`, closed by a line containing
`AllowedIPs`, each with no other keyword; well-formed lines inside; lines without keywords
after it. -/
def Block.wellFormed (b : Block) : Bool :=
  Contains b.opener kwPeer && decide (keywordCount b.opener ≤ 1) &&
    b.body.all wellFormedBodyLine &&
    Contains b.closer kwAllowedIPs && decide (keywordCount b.closer ≤ 1) &&
    b.trailer.all isPlain

/-- The normalized keys of the `PublicKey` lines among `ls`, in order. -/
def keysOf (ls : List Str) : List Str :=
  (ls.filter (fun l => Contains l kwPublicKey)).map statedKey

/-- The normalized keys of all blocks, in file order. -/
def allKeys (blocks : List Block) : List Str := blocks.flatMap (fun b => keysOf b.body)

/-- The lines of a configuration file made of `header` followed by `blocks`. -/
def configLines (header : List Str) (blocks : List Block) : List Str :=
  header ++ blocks.flatMap Block.lines

/-- A well-formed configuration: lines without keywords, then a sequence of well-formed
peer blocks whose normalized public keys are pairwise distinct. -/
def wellFormedConfig (header : List Str) (blocks : List Block) : Bool :=
  header.all isPlain && blocks.all Block.wellFormed && decide (allKeys blocks).Nodup

/-- The pending name after reading the lines `ls` inside a block, starting from `p`: the
name stated by the last `friendly_name` line, `p` when there is none. -/
def pendingAfter (p : Str) (ls : List Str) : Str :=
  ls.foldl (fun q l => if Contains l kwFriendlyName then statedName l else q) p

/-- The lines before the first block of a sample configuration. -/
def sampleHeader : List Str := [str "[Interface]", str "ListenPort = 51820"]

/-- The two peer blocks of a sample configuration: in the first the name line precedes the
key line, in the second it follows it. -/
def sampleBlocks : List Block :=
  [ { opener := str "[Peer]",
      body := [str "# friendly_name = alice", str "PublicKey = abc123"],
      closer := str "AllowedIPs = 10.0.0.1/32",
      trailer := [str "Endpoint = 192.0.2.1:51820"] },
    { opener := str "[Peer]",
      body := [str "PublicKey = def456", str "# friendly_name = bob"],
      closer := str "AllowedIPs = 10.0.0.2/32",
      trailer := [] } ]

/-- The text between the first `=` of a line and its next `=`, up to the end of the line
when there is no further `=`: the value of `strings.Split(line, "=")[1]` on a line that has
an `=`. -/
def secondPiece (l : Str) : Str := (lineValue l).takeWhile (fun c => c != (chr '='))

/-- The key under which the `PublicKey` branch stores its entry (line 104). -/
def writtenKey (l : Str) : Str := TrimSpace (secondPiece l) ++ str "="

/-- The keys of a directory, in the order of its entries. -/
def Directory.keys (d : Directory) : List Str := d.map Prod.fst

/-- The configuration with every line that contains `[Peer]` deleted. -/
def withoutPeerLines (lines : List Str) : List Str :=
  lines.filter (fun l => !Contains l kwPeer)

/-- The builder state without the inside-block flag: key variable, pending name and
directory. -/
def BuilderState.content (s : BuilderState) : Str × Str × Directory :=
  (s.pubKey, s.peername, s.peerNames)

/-- The keys written in one block differ from the keys written in every other block. -/
def keysDistinctAcrossBlocks : List Block → Bool
  | [] => true
  | b :: rest =>
    rest.all (fun b' => (keysOf b.body).all (fun k => !(keysOf b'.body).contains k)) &&
      keysDistinctAcrossBlocks rest

/-- The conditions of `wellFormedConfig` with the normalized public keys only required to
be distinct across blocks, not within a block. -/
def wellFormedAcrossBlocks (header : List Str) (blocks : List Block) : Bool :=
  header.all isPlain && blocks.all Block.wellFormed && keysDistinctAcrossBlocks blocks

/-! ## Basic facts -/

theorem index_eq_ok {α : Type} {xs : List α} {i : Nat} {x : α} (h : xs[i]? = some x) :
    index xs i = .ok x := by
  simp [index, h]

theorem index_eq_error {α : Type} {xs : List α} {i : Nat} (h : xs.length ≤ i) :
    index xs i = .error (.indexOutOfRange i xs.length) := by
  simp [index, List.getElem?_eq_none h]

theorem Directory.get_set (d : Directory) (k k' : Str) (v : peer) :
    (d.set k v).get k' = if k = k' then v else d.get k' := by
  induction d with
  | nil => simp [Directory.set, Directory.get]
  | cons e d ih =>
    obtain ⟨k0, v0⟩ := e
    by_cases h0 : k0 = k
    · subst h0
      by_cases h1 : k0 = k' <;> simp [Directory.set, Directory.get, h1]
    · by_cases h1 : k0 = k'
      · subst h1
        have h2 : ¬ k = k0 := fun h => h0 h.symm
        simp [Directory.set, Directory.get, h0, h2]
      · simp [Directory.set, Directory.get, h0, h1, ih]

theorem Directory.get_set_self (d : Directory) (k : Str) (v : peer) :
    (d.set k v).get k = v := by
  simp [Directory.get_set]

theorem Directory.get_set_of_ne (d : Directory) {k k' : Str} (v : peer) (h : k ≠ k') :
    (d.set k v).get k' = d.get k' := by
  simp [Directory.get_set, h]

theorem Split_of_not_mem (sep : GoChar) (x : Str) (h : sep ∉ x) : Split sep x = [x] := by
  induction x with
  | nil => rfl
  | cons c x ih =>
    have hc : c ≠ sep := fun hc => h (hc ▸ List.mem_cons_self _ _)
    have hx : sep ∉ x := fun hx => h (List.mem_cons_of_mem _ hx)
    simp [Split, hc, ih hx]

theorem Split_append_sep (sep : GoChar) (x rest : Str) (h : sep ∉ x) :
    Split sep (x ++ sep :: rest) = x :: Split sep rest := by
  induction x with
  | nil => simp [Split]
  | cons c x ih =>
    have hc : c ≠ sep := fun hc => h (hc ▸ List.mem_cons_self _ _)
    have hx : sep ∉ x := fun hx => h (List.mem_cons_of_mem _ hx)
    simp [Split, hc, ih hx]

theorem HasPrefix_append_singleton (s sub : Str) (c : GoChar) (h : c ∉ sub) :
    HasPrefix (s ++ [c]) sub = HasPrefix s sub := by
  induction s generalizing sub with
  | nil =>
    cases sub with
    | nil => rfl
    | cons d p =>
      have hcd : c ≠ d := fun hcd => h (hcd ▸ List.mem_cons_self _ _)
      simp [HasPrefix, hcd]
  | cons x s ih =>
    cases sub with
    | nil => rfl
    | cons d p =>
      have hp : c ∉ p := fun hp => h (List.mem_cons_of_mem _ hp)
      simp [HasPrefix, ih p hp]

theorem Contains_append_singleton (s sub : Str) (c : GoChar) (h : c ∉ sub) :
    Contains (s ++ [c]) sub = Contains s sub := by
  induction s with
  | nil =>
    have h1 := HasPrefix_append_singleton [] sub c h
    simp only [List.nil_append] at h1
    simp [Contains, h1]
  | cons x s ih =>
    have h1 := HasPrefix_append_singleton (x :: s) sub c h
    simp only [List.cons_append] at h1
    simp [Contains, h1, ih]

theorem dropWhile_eq_self_of_forall {p : GoChar → Bool} (l : Str)
    (h : ∀ c ∈ l, p c = false) : l.dropWhile p = l := by
  cases l with
  | nil => rfl
  | cons c l => simp [List.dropWhile, h c (List.mem_cons_self _ _)]

theorem TrimSpace_of_no_space (k : Str) (h : ∀ c ∈ k, isSpace c = false) :
    TrimSpace k = k := by
  unfold TrimSpace
  rw [dropWhile_eq_self_of_forall k h,
    dropWhile_eq_self_of_forall k.reverse (fun c hc => h c (List.mem_reverse.mp hc)),
    List.reverse_reverse]

theorem TrimSpace_cons_space (n : Str) : TrimSpace ((chr ' ') :: n) = TrimSpace n := by
  have h : isSpace (chr ' ') = true := by decide
  simp [TrimSpace, List.dropWhile, h]

theorem runLines_append (s : BuilderState) (xs ys : List Str) :
    runLines s (xs ++ ys) =
      match runLines s xs with
      | .error e => .error e
      | .ok s' => runLines s' ys := by
  induction xs generalizing s with
  | nil => simp [runLines]
  | cons x xs ih =>
    simp only [List.cons_append, runLines]
    cases hx : stepLine s x with
    | error e => simp
    | ok s' => simpa using ih s'

/-- A line on which the first branch of the loop body is not taken and that contains
`AllowedIPs` resets the flag and the pending name and changes nothing else. -/
theorem stepLine_sentinel (s : BuilderState) (line : Str)
    (hA : Contains line kwAllowedIPs = true)
    (hP : s.inBlock = true ∨ Contains line kwPeer = false) :
    stepLine s line = .ok { s with inBlock := false, peername := [] } := by
  unfold stepLine
  rcases hP with hP | hP <;> simp [hP, hA]

/-- A line that contains none of the four keywords leaves the state as it is. -/
theorem stepLine_plain (s : BuilderState) (line : Str)
    (h1 : Contains line kwPeer = false)
    (h2 : Contains line kwAllowedIPs = false)
    (h3 : Contains line kwFriendlyName = false)
    (h4 : Contains line kwPublicKey = false) :
    stepLine s line = .ok s := by
  simp [stepLine, h1, h2, h3, h4]

/-- Lines that contain neither `friendly_name` nor `PublicKey` are processed without panic
and leave the directory as it is. -/
theorem runLines_without_name_key (s : BuilderState) (ls : List Str)
    (h : ∀ l ∈ ls, Contains l kwFriendlyName = false ∧ Contains l kwPublicKey = false) :
    ∃ s', runLines s ls = .ok s' ∧ s'.peerNames = s.peerNames := by
  induction ls generalizing s with
  | nil => exact ⟨s, rfl, rfl⟩
  | cons l ls ih =>
    obtain ⟨h3, h4⟩ := h l (List.mem_cons_self _ _)
    have hls := fun x hx => h x (List.mem_cons_of_mem l hx)
    have hstep : ∃ s1, stepLine s l = .ok s1 ∧ s1.peerNames = s.peerNames := by
      unfold stepLine
      simp only [h3, h4]
      split
      · exact ⟨_, rfl, rfl⟩
      · split
        · exact ⟨_, rfl, rfl⟩
        · exact ⟨_, rfl, rfl⟩
    obtain ⟨s1, hs1, hd1⟩ := hstep
    obtain ⟨s', hs', hd'⟩ := ih s1 hls
    exact ⟨s', by simp [runLines, hs1, hs'], hd'.trans hd1⟩

/-- The two lines `friendly_name = n` and `PublicKey = k=`, read inside a block, store
under the key `k=` the trimmed `n`. -/
theorem stepLine_name_then_key (s : BuilderState) (k n : Str) (hin : s.inBlock = true)
    (hk1 : (chr '=') ∉ k) (hk2 : ∀ c ∈ k, isSpace c = false)
    (hk4 : Contains k kwAllowedIPs = false) (hk5 : Contains k kwFriendlyName = false)
    (hn1 : (chr '=') ∉ n) (hn2 : Contains n kwAllowedIPs = false) :
    runLines s [(str "friendly_name = ") ++ n, (str "PublicKey = ") ++ k ++ str "="]
      = .ok { inBlock := true, pubKey := k ++ str "=", peername := TrimSpace n,
              peerNames := s.peerNames.set (k ++ str "=")
                { peerName := TrimSpace n, peerKey := k ++ str "=" } } := by
  have a1 : Contains ((str "friendly_name = ") ++ n) kwAllowedIPs = false := by
    simpa [Contains, HasPrefix, kwAllowedIPs] using hn2
  have a2 : Contains ((str "friendly_name = ") ++ n) kwFriendlyName = true := by
    simp [Contains, HasPrefix, kwFriendlyName]
  have a3 : Split (chr '=') ((str "friendly_name = ") ++ n)
      = [str "friendly_name ", (chr ' ') :: n] := by
    rw [show (str "friendly_name = ") ++ n = (str "friendly_name ") ++ (chr '=') :: ((chr ' ') :: n)
        from rfl, Split_append_sep _ _ _ (by decide),
      Split_of_not_mem _ _ (by simpa using hn1)]
  have b0 : Contains (k ++ [(chr '=')]) kwAllowedIPs = false := by
    rw [Contains_append_singleton _ _ _ (by decide)]
    exact hk4
  have b0' : Contains (k ++ [(chr '=')]) kwFriendlyName = false := by
    rw [Contains_append_singleton _ _ _ (by decide)]
    exact hk5
  have b1 : Contains ((str "PublicKey = ") ++ k ++ str "=") kwAllowedIPs = false := by
    simpa [Contains, HasPrefix, kwAllowedIPs] using b0
  have b2 : Contains ((str "PublicKey = ") ++ k ++ str "=") kwFriendlyName = false := by
    simpa [Contains, HasPrefix, kwFriendlyName] using b0'
  have b3 : Contains ((str "PublicKey = ") ++ k ++ str "=") kwPublicKey = true := by
    simp [Contains, HasPrefix, kwPublicKey]
  have b4 : Split (chr '=') ((str "PublicKey = ") ++ k ++ str "=")
      = [str "PublicKey ", (chr ' ') :: k, []] := by
    rw [show (str "PublicKey = ") ++ k ++ str "="
        = (str "PublicKey ") ++ (chr '=') :: (((chr ' ') :: k) ++ (chr '=') :: []) from by simp [str],
      Split_append_sep _ _ _ (by decide),
      Split_append_sep _ _ _ (by simpa using hk1)]
    rfl
  have t1 : TrimSpace ((chr ' ') :: k) = k := by
    rw [TrimSpace_cons_space, TrimSpace_of_no_space k hk2]
  simp only [runLines, stepLine, hin, a1, a2, a3, b1, b2, b3, b4, index]
  simp [t1, TrimSpace_cons_space]

theorem runLines_cons_ok {s s1 : BuilderState} {l : Str} (ls : List Str)
    (h : stepLine s l = .ok s1) : runLines s (l :: ls) = runLines s1 ls := by
  simp [runLines, h]

theorem runLines_append_ok {s s1 : BuilderState} {xs : List Str} (ys : List Str)
    (h : runLines s xs = .ok s1) : runLines s (xs ++ ys) = runLines s1 ys := by
  simp [runLines_append, h]

theorem index_Split_one (l : Str) (h1 : (chr '=') ∈ l) (h2 : (chr '=') ∉ lineValue l) :
    index (Split (chr '=') l) 1 = .ok (lineValue l) := by
  apply index_eq_ok
  induction l with
  | nil => simp at h1
  | cons c t ih =>
    by_cases hc : c = (chr '=')
    · subst hc
      have hv : lineValue ((chr '=') :: t) = t := by simp [lineValue, List.dropWhile]
      rw [hv] at h2
      simp [Split, Split_of_not_mem (chr '=') t h2, hv]
    · have hv : lineValue (c :: t) = lineValue t := by
        have hb : (c != (chr '=')) = true := by simpa using hc
        simp [lineValue, List.dropWhile, hb]
      rw [hv] at h2
      have ht : (chr '=') ∈ t := by
        rcases List.mem_cons.mp h1 with h | h
        · exact absurd h.symm hc
        · exact h
      have := ih ht h2
      rw [hv]
      cases hs : Split (chr '=') t with
      | nil => simp [hs] at this
      | cons p ps =>
        rw [hs] at this
        simpa [Split, hc, hs] using this

theorem plain_iff (l : Str) :
    isPlain l = true ↔ Contains l kwPeer = false ∧ Contains l kwAllowedIPs = false ∧
      Contains l kwFriendlyName = false ∧ Contains l kwPublicKey = false := by
  unfold isPlain keywordCount
  cases Contains l kwPeer <;> cases Contains l kwAllowedIPs <;>
    cases Contains l kwFriendlyName <;> cases Contains l kwPublicKey <;> simp

theorem runLines_plain (s : BuilderState) (ls : List Str) (h : ls.all isPlain = true) :
    runLines s ls = .ok s := by
  induction ls with
  | nil => rfl
  | cons l ls ih =>
    simp only [List.all_cons, Bool.and_eq_true] at h
    obtain ⟨h1, h2, h3, h4⟩ := (plain_iff l).mp h.1
    rw [runLines_cons_ok ls (stepLine_plain s l h1 h2 h3 h4)]
    exact ih h.2

theorem stepLine_body (l : Str) (hwf : wellFormedBodyLine l = true) (s : BuilderState) :
    ∃ s', stepLine s l = .ok s' ∧ s'.inBlock = s.inBlock ∧
      s'.peername = (if Contains l kwFriendlyName then statedName l else s.peername) ∧
      s'.peerNames = (if Contains l kwPublicKey then
          s.peerNames.set (statedKey l) { peerName := s.peername, peerKey := statedKey l }
        else s.peerNames) := by
  unfold wellFormedBodyLine keywordCount hasValue at hwf
  unfold stepLine
  cases h1 : Contains l kwPeer <;> cases h2 : Contains l kwAllowedIPs <;>
    cases h3 : Contains l kwFriendlyName <;> cases h4 : Contains l kwPublicKey <;>
    simp [h1, h2, h3, h4] at hwf ⊢
  · rw [index_Split_one l hwf.1 hwf.2]
    exact ⟨_, rfl, rfl, rfl, rfl⟩
  · rw [index_Split_one l hwf.1 hwf.2]
    exact ⟨_, rfl, rfl, rfl, rfl⟩

theorem not_mem_keysOf_cons {k l : Str} {ls : List Str} (h : k ∉ keysOf (l :: ls)) :
    (Contains l kwPublicKey = true → statedKey l ≠ k) ∧ k ∉ keysOf ls := by
  unfold keysOf at h ⊢
  by_cases hl : Contains l kwPublicKey = true
  · simp only [List.filter_cons, hl, if_true, List.map_cons, List.mem_cons, not_or] at h
    exact ⟨fun _ hk => h.1 hk.symm, h.2⟩
  · simp only [List.filter_cons, hl] at h
    exact ⟨fun h' => absurd h' hl, h⟩

theorem runLines_body (ls : List Str) (hwf : ∀ l ∈ ls, wellFormedBodyLine l = true)
    (s : BuilderState) :
    ∃ s', runLines s ls = .ok s' ∧ s'.inBlock = s.inBlock ∧
      s'.peername = pendingAfter s.peername ls ∧
      ∀ k, k ∉ keysOf ls → s'.peerNames.get k = s.peerNames.get k := by
  induction ls generalizing s with
  | nil => exact ⟨s, rfl, rfl, rfl, fun _ _ => rfl⟩
  | cons l ls ih =>
    obtain ⟨s1, hs1, hb1, hn1, hd1⟩ := stepLine_body l (hwf l (List.mem_cons_self _ _)) s
    obtain ⟨s', hs', hb', hn', hd'⟩ := ih (fun x hx => hwf x (List.mem_cons_of_mem _ hx)) s1
    refine ⟨s', by rw [runLines_cons_ok ls hs1, hs'], hb'.trans hb1, ?_, ?_⟩
    · rw [hn', hn1]
      rfl
    · intro k hk
      obtain ⟨hk1, hk2⟩ := not_mem_keysOf_cons hk
      rw [hd' k hk2, hd1]
      by_cases hl : Contains l kwPublicKey = true
      · simp only [hl, if_true]
        exact Directory.get_set_of_ne _ _ (hk1 hl)
      · simp [hl]

theorem stepLine_opener (s : BuilderState) (l : Str) (h : Contains l kwPeer = true)
    (hc : keywordCount l ≤ 1) : stepLine s l = .ok { s with inBlock := true } := by
  unfold keywordCount at hc
  unfold stepLine
  obtain ⟨b, pk, pn, d⟩ := s
  cases h2 : Contains l kwAllowedIPs <;> cases h3 : Contains l kwFriendlyName <;>
    cases h4 : Contains l kwPublicKey <;> cases b <;> simp [h, h2, h3, h4] at hc ⊢

theorem stepLine_closer (s : BuilderState) (l : Str) (h : Contains l kwAllowedIPs = true)
    (hc : keywordCount l ≤ 1) :
    stepLine s l = .ok { s with inBlock := false, peername := [] } := by
  apply stepLine_sentinel s l h
  right
  unfold keywordCount at hc
  cases h1 : Contains l kwPeer with
  | false => rfl
  | true =>
    simp [h, h1] at hc
    omega

theorem pendingAfter_append (p : Str) (xs ys : List Str) :
    pendingAfter p (xs ++ ys) = pendingAfter (pendingAfter p xs) ys := by
  simp [pendingAfter, List.foldl_append]

theorem pendingAfter_of_no_name (p : Str) (ls : List Str)
    (h : ∀ l ∈ ls, Contains l kwFriendlyName = false) : pendingAfter p ls = p := by
  induction ls generalizing p with
  | nil => rfl
  | cons l ls ih =>
    have hl := h l (List.mem_cons_self _ _)
    simp only [pendingAfter, List.foldl_cons, hl]
    exact ih p (fun x hx => h x (List.mem_cons_of_mem _ hx))

theorem pendingAfter_last_name (p : Str) (before mid : List Str) (nameLine : Str)
    (hn : Contains nameLine kwFriendlyName = true)
    (hmid : ∀ l ∈ mid, Contains l kwFriendlyName = false) :
    pendingAfter p (before ++ nameLine :: mid) = statedName nameLine := by
  rw [pendingAfter_append]
  have : pendingAfter (pendingAfter p before) (nameLine :: mid)
      = pendingAfter (statedName nameLine) mid := by
    simp [pendingAfter, hn]
  rw [this]
  exact pendingAfter_of_no_name _ _ hmid

theorem keysOf_append (xs ys : List Str) : keysOf (xs ++ ys) = keysOf xs ++ keysOf ys := by
  simp [keysOf]

theorem keysOf_cons_key (l : Str) (ls : List Str) (h : Contains l kwPublicKey = true) :
    keysOf (l :: ls) = statedKey l :: keysOf ls := by
  simp [keysOf, h]

/-- A well-formed block read from a state with empty pending name: no panic, the pending
name is empty again afterwards, keys not written in the block keep their entries, and a
key line whose key is not written again later in the block has the name pending at it. -/
theorem runLines_block (b : Block) (hwf : b.wellFormed = true) (s : BuilderState)
    (hs : s.peername = []) :
    ∃ s', runLines s b.lines = .ok s' ∧ s'.peername = [] ∧
      (∀ k, k ∉ keysOf b.body → s'.peerNames.get k = s.peerNames.get k) ∧
      (∀ (pre post : List Str) (keyLine : Str), b.body = pre ++ keyLine :: post →
        Contains keyLine kwPublicKey = true → statedKey keyLine ∉ keysOf post →
        s'.peerNames.get (statedKey keyLine)
          = { peerName := pendingAfter [] pre, peerKey := statedKey keyLine }) := by
  simp only [Block.wellFormed, Bool.and_eq_true, decide_eq_true_eq, List.all_eq_true] at hwf
  obtain ⟨⟨⟨⟨⟨ho1, ho2⟩, hbody⟩, hc1⟩, hc2⟩, htr⟩ := hwf
  have htr' : b.trailer.all isPlain = true := List.all_eq_true.mpr htr
  have hopen := stepLine_opener s b.opener ho1 ho2
  obtain ⟨s2, hs2, -, hn2, hd2⟩ := runLines_body b.body hbody { s with inBlock := true }
  have hclose := stepLine_closer s2 b.closer hc1 hc2
  have hrun : runLines s b.lines
      = .ok { s2 with inBlock := false, peername := [] } := by
    rw [Block.lines, runLines_cons_ok _ hopen, runLines_append_ok _ hs2,
      runLines_cons_ok _ hclose, runLines_plain _ _ htr']
  refine ⟨_, hrun, rfl, hd2, ?_⟩
  intro pre post keyLine hsplit hkey hnot
  have hpre : ∀ l ∈ pre, wellFormedBodyLine l = true := fun l hl =>
    hbody l (by rw [hsplit]; exact List.mem_append_left _ hl)
  have hline : wellFormedBodyLine keyLine = true :=
    hbody keyLine (by rw [hsplit]; simp)
  have hpost : ∀ l ∈ post, wellFormedBodyLine l = true := fun l hl =>
    hbody l (by rw [hsplit]; simp [hl])
  obtain ⟨t1, ht1, -, hn1, -⟩ := runLines_body pre hpre { s with inBlock := true }
  obtain ⟨t2, ht2, -, -, hd2'⟩ := stepLine_body keyLine hline t1
  obtain ⟨t3, ht3, -, -, hd3⟩ := runLines_body post hpost t2
  have hagain : runLines { s with inBlock := true } b.body = .ok t3 := by
    rw [hsplit, runLines_append_ok _ ht1, runLines_cons_ok _ ht2, ht3]
  have heq : s2 = t3 := by
    rw [hs2] at hagain
    exact Except.ok.inj hagain
  show s2.peerNames.get (statedKey keyLine) = _
  rw [heq, hd3 _ hnot, hd2']
  simp only [hkey, if_true]
  rw [Directory.get_set_self, hn1]
  simp [hs]

/-- A sequence of well-formed blocks with pairwise distinct keys, read from a state with
empty pending name. -/
theorem runLines_blocks (blocks : List Block) (hwf : ∀ b ∈ blocks, b.wellFormed = true)
    (hnd : (allKeys blocks).Nodup) (s : BuilderState) (hs : s.peername = []) :
    ∃ s', runLines s (blocks.flatMap Block.lines) = .ok s' ∧ s'.peername = [] ∧
      (∀ k, k ∉ allKeys blocks → s'.peerNames.get k = s.peerNames.get k) ∧
      (∀ b ∈ blocks, ∀ (pre post : List Str) (keyLine : Str),
        b.body = pre ++ keyLine :: post → Contains keyLine kwPublicKey = true →
        s'.peerNames.get (statedKey keyLine)
          = { peerName := pendingAfter [] pre, peerKey := statedKey keyLine }) := by
  induction blocks generalizing s with
  | nil => exact ⟨s, rfl, hs, fun _ _ => rfl, fun b hb => absurd hb (List.not_mem_nil b)⟩
  | cons b rest ih =>
    have hnd' : (keysOf b.body ++ allKeys rest).Nodup := by
      simpa [allKeys, List.flatMap_cons] using hnd
    obtain ⟨hnb, hnr, hdis⟩ := List.nodup_append.mp hnd'
    obtain ⟨s1, hs1, hp1, hf1, hk1⟩ :=
      runLines_block b (hwf b (List.mem_cons_self _ _)) s hs
    obtain ⟨s', hs', hp', hf', hk'⟩ :=
      ih (fun x hx => hwf x (List.mem_cons_of_mem _ hx)) hnr s1 hp1
    refine ⟨s', ?_, hp', ?_, ?_⟩
    · rw [List.flatMap_cons, runLines_append_ok _ hs1, hs']
    · intro k hk
      have hk2 : k ∉ keysOf b.body ++ allKeys rest := by
        simpa [allKeys, List.flatMap_cons] using hk
      rw [hf' k (fun h => hk2 (List.mem_append_right _ h)),
        hf1 k (fun h => hk2 (List.mem_append_left _ h))]
    · intro b' hb' pre post keyLine hsplit hkey
      rcases List.mem_cons.mp hb' with rfl | hb'
      · have hmem : statedKey keyLine ∈ keysOf b'.body := by
          rw [hsplit, keysOf_append, keysOf_cons_key _ _ hkey]
          simp
        have hnpost : statedKey keyLine ∉ keysOf post := by
          rw [hsplit, keysOf_append, keysOf_cons_key _ _ hkey] at hnb
          have h2 := (List.nodup_append.mp hnb).2.1
          exact (List.nodup_cons.mp h2).1
        rw [hf' _ (fun h => hdis hmem h)]
        exact hk1 pre post keyLine hsplit hkey hnpost
      · exact hk' b' hb' pre post keyLine hsplit hkey

theorem Split_head (t : Str) :
    (Split (chr '=') t)[0]? = some (t.takeWhile (fun c => c != (chr '='))) := by
  induction t with
  | nil => rfl
  | cons c t ih =>
    by_cases hc : c = (chr '=')
    · subst hc
      simp [Split, List.takeWhile]
    · have hb : (c != (chr '=')) = true := by simpa using hc
      cases hs : Split (chr '=') t with
      | nil => simp [hs] at ih
      | cons p ps =>
        rw [hs] at ih
        simp only [List.getElem?_cons_zero, Option.some.injEq] at ih
        simp [Split, hc, hs, List.takeWhile, hb, ih]

theorem index_Split_secondPiece (l : Str) (h : (chr '=') ∈ l) :
    index (Split (chr '=') l) 1 = .ok (secondPiece l) := by
  apply index_eq_ok
  induction l with
  | nil => simp at h
  | cons c t ih =>
    by_cases hc : c = (chr '=')
    · subst hc
      have hv : lineValue ((chr '=') :: t) = t := by simp [lineValue, List.dropWhile]
      simp only [secondPiece, hv]
      simpa [Split] using Split_head t
    · have hb : (c != (chr '=')) = true := by simpa using hc
      have hv : lineValue (c :: t) = lineValue t := by
        simp [lineValue, List.dropWhile, hb]
      have ht : (chr '=') ∈ t := by
        rcases List.mem_cons.mp h with h' | h'
        · exact absurd h'.symm hc
        · exact h'
      have := ih ht
      simp only [secondPiece, hv] at this ⊢
      cases hs : Split (chr '=') t with
      | nil => simp [hs] at this
      | cons p ps =>
        rw [hs] at this
        simpa [Split, hc, hs] using this

theorem index_Split_no_equals (l : Str) (h : (chr '=') ∉ l) :
    index (Split (chr '=') l) 1 = .error (.indexOutOfRange 1 1) := by
  rw [Split_of_not_mem (chr '=') l h]
  rfl

theorem secondPiece_of_no_further (l : Str) (h : (chr '=') ∉ lineValue l) :
    secondPiece l = lineValue l := by
  unfold secondPiece
  apply List.takeWhile_eq_self_iff.mpr
  intro c hc
  have : c ≠ (chr '=') := fun hce => h (hce ▸ hc)
  simpa using this

/-- A line with an `=` that reaches the `friendly_name` branch sets the pending name to the
trimmed second piece of the line and changes nothing else. -/
theorem stepLine_name_branch (s : BuilderState) (l : Str)
    (hP : s.inBlock = true ∨ Contains l kwPeer = false)
    (hA : Contains l kwAllowedIPs = false) (hN : Contains l kwFriendlyName = true)
    (hE : (chr '=') ∈ l) :
    stepLine s l = .ok { s with peername := TrimSpace (secondPiece l) } := by
  unfold stepLine
  rcases hP with hP | hP <;> simp [hP, hA, hN, index_Split_secondPiece l hE]

/-- A line that contains `[Peer]` and none of the other keywords, read with the flag set,
leaves the state as it is. -/
theorem stepLine_marker_inside (s : BuilderState) (l : Str) (hin : s.inBlock = true)
    (hA : Contains l kwAllowedIPs = false) (hN : Contains l kwFriendlyName = false)
    (hK : Contains l kwPublicKey = false) : stepLine s l = .ok s := by
  simp [stepLine, hin, hA, hN, hK]

/-- The line `friendly_name = n`, read with the flag set: for `n` without `=` and without
`AllowedIPs` the pending name becomes the trimmed `n`. -/
theorem stepLine_name_line (s : BuilderState) (n : Str) (hin : s.inBlock = true)
    (hn1 : (chr '=') ∉ n) (hn2 : Contains n kwAllowedIPs = false) :
    stepLine s ((str "friendly_name = ") ++ n) = .ok { s with peername := TrimSpace n } := by
  have a1 : Contains ((str "friendly_name = ") ++ n) kwAllowedIPs = false := by
    simpa [Contains, HasPrefix, kwAllowedIPs] using hn2
  have a2 : Contains ((str "friendly_name = ") ++ n) kwFriendlyName = true := by
    simp [Contains, HasPrefix, kwFriendlyName]
  have a3 : Split (chr '=') ((str "friendly_name = ") ++ n)
      = [str "friendly_name ", (chr ' ') :: n] := by
    rw [show (str "friendly_name = ") ++ n = (str "friendly_name ") ++ (chr '=') :: ((chr ' ') :: n)
        from rfl, Split_append_sep _ _ _ (by decide),
      Split_of_not_mem _ _ (by simpa using hn1)]
  simp only [stepLine, hin, a1, a2, a3, index]
  simp [TrimSpace_cons_space]

/-- The line `PublicKey = k`, read with the flag set: for `k` without `=`, white space,
`AllowedIPs` and `friendly_name` the pending name is stored under `k=`. -/
theorem stepLine_key_line (s : BuilderState) (k : Str) (hin : s.inBlock = true)
    (hk1 : (chr '=') ∉ k) (hk2 : ∀ c ∈ k, isSpace c = false)
    (hk4 : Contains k kwAllowedIPs = false) (hk5 : Contains k kwFriendlyName = false) :
    stepLine s ((str "PublicKey = ") ++ k)
      = .ok { s with pubKey := k ++ str "=",
                     peerNames := s.peerNames.set (k ++ str "=")
                       { peerName := s.peername, peerKey := k ++ str "=" } } := by
  have b1 : Contains ((str "PublicKey = ") ++ k) kwAllowedIPs = false := by
    simpa [Contains, HasPrefix, kwAllowedIPs] using hk4
  have b2 : Contains ((str "PublicKey = ") ++ k) kwFriendlyName = false := by
    simpa [Contains, HasPrefix, kwFriendlyName] using hk5
  have b3 : Contains ((str "PublicKey = ") ++ k) kwPublicKey = true := by
    simp [Contains, HasPrefix, kwPublicKey]
  have b4 : Split (chr '=') ((str "PublicKey = ") ++ k) = [str "PublicKey ", (chr ' ') :: k] := by
    rw [show (str "PublicKey = ") ++ k = (str "PublicKey ") ++ (chr '=') :: ((chr ' ') :: k)
        from rfl, Split_append_sep _ _ _ (by decide),
      Split_of_not_mem _ _ (by simpa using hk1)]
  have t1 : TrimSpace ((chr ' ') :: k) = k := by
    rw [TrimSpace_cons_space, TrimSpace_of_no_space k hk2]
  simp only [stepLine, hin, b1, b2, b3, b4, index]
  simp [t1]

theorem dataLines_first_line (first rest : Str) (h : (chr '\n') ∉ first) :
    dataLines (first ++ (chr '\n') :: rest) = Split (chr '\n') rest := by
  simp [dataLines, Split_append_sep _ _ _ h]

theorem dataLines_single_line (first : Str) (h : (chr '\n') ∉ first) : dataLines first = [] := by
  simp [dataLines, Split_of_not_mem _ _ h]

theorem Directory.keys_set (d : Directory) (k : Str) (v : peer) :
    (d.set k v).keys = if k ∈ d.keys then d.keys else d.keys ++ [k] := by
  induction d with
  | nil => simp [Directory.set, Directory.keys]
  | cons e d ih =>
    obtain ⟨k0, v0⟩ := e
    simp only [Directory.keys] at ih ⊢
    by_cases h0 : k0 = k
    · subst h0
      simp only [Directory.set, if_true, List.map_cons, List.mem_cons, true_or]
    · have h1 : ¬ k = k0 := fun h => h0 h.symm
      simp only [Directory.set, h0, if_false, List.map_cons, ih, List.mem_cons, h1, false_or]
      split <;> rfl

theorem Directory.keys_set_nodup (d : Directory) (k : Str) (v : peer) (h : d.keys.Nodup) :
    (d.set k v).keys.Nodup := by
  rw [Directory.keys_set]
  split
  · exact h
  · rename_i hk
    exact List.nodup_append.mpr ⟨h, List.nodup_singleton k, by
      intro x hx hx'
      rw [List.mem_singleton.mp hx'] at hx
      exact hk hx⟩

theorem Directory.mem_keys_set (d : Directory) (k k' : Str) (v : peer)
    (h : k' = k ∨ k' ∈ d.keys) : k' ∈ (d.set k v).keys := by
  rw [Directory.keys_set]
  split
  · rename_i hk
    rcases h with rfl | h
    · exact hk
    · exact h
  · rcases h with rfl | h
    · simp
    · exact List.mem_append_left _ h

theorem Directory.filter_key (d : Directory) (k : Str) (hn : d.keys.Nodup) (hk : k ∈ d.keys) :
    d.filter (fun e => decide (e.1 = k)) = [(k, d.get k)] := by
  induction d with
  | nil => simp [Directory.keys] at hk
  | cons e d ih =>
    obtain ⟨k0, v0⟩ := e
    simp only [Directory.keys, List.map_cons, List.nodup_cons, List.mem_cons] at hn hk ih
    by_cases h0 : k0 = k
    · subst h0
      have hrest : d.filter (fun e => decide (e.1 = k0)) = [] := by
        apply List.filter_eq_nil_iff.mpr
        intro e he hek
        have : e.1 = k0 := by simpa using hek
        exact hn.1 (this ▸ List.mem_map_of_mem Prod.fst he)
      simp [Directory.get, hrest]
    · have hk' : k ∈ List.map Prod.fst d := by
        rcases hk with h | h
        · exact absurd h.symm h0
        · exact h
      have := ih hn.2 hk'
      simp [Directory.get, h0, this]

/-- What one line can do to the directory: nothing, or the write of the `PublicKey`
branch. -/
theorem stepLine_peerNames (s s' : BuilderState) (l : Str) (h : stepLine s l = .ok s') :
    s'.peerNames = s.peerNames ∨
    (Contains l kwPublicKey = true ∧
      s'.peerNames = s.peerNames.set (writtenKey l)
        { peerName := s.peername, peerKey := writtenKey l }) := by
  unfold stepLine at h
  split at h
  · cases h
    exact Or.inl rfl
  · split at h
    · cases h
      exact Or.inl rfl
    · split at h
      · split at h
        · cases h
        · cases h
          exact Or.inl rfl
      · split at h
        · rename_i hK
          by_cases hE : (chr '=') ∈ l
          · rw [index_Split_secondPiece l hE] at h
            cases h
            exact Or.inr ⟨hK, rfl⟩
          · rw [index_Split_no_equals l hE] at h
            cases h
        · cases h
          exact Or.inl rfl

theorem runLines_directory_invariants (ls : List Str) (s s' : BuilderState)
    (h : runLines s ls = .ok s') :
    (s.peerNames.keys.Nodup → s'.peerNames.keys.Nodup) ∧
    (∀ k, k ∈ s.peerNames.keys → k ∈ s'.peerNames.keys) ∧
    (∀ k, (∀ l ∈ ls, Contains l kwPublicKey = true → writtenKey l ≠ k) →
      s'.peerNames.get k = s.peerNames.get k) := by
  induction ls generalizing s with
  | nil =>
    cases h
    exact ⟨id, fun _ hk => hk, fun _ _ => rfl⟩
  | cons l ls ih =>
    simp only [runLines] at h
    cases hs : stepLine s l with
    | error e => simp [hs] at h
    | ok s1 =>
      simp only [hs] at h
      obtain ⟨i1, i2, i3⟩ := ih s1 h
      rcases stepLine_peerNames s s1 l hs with hd | ⟨hK, hd⟩
      · rw [hd] at i1 i2 i3
        exact ⟨i1, i2, fun k hk => i3 k (fun x hx => hk x (List.mem_cons_of_mem _ hx))⟩
      · rw [hd] at i1 i2 i3
        refine ⟨fun hn => i1 (Directory.keys_set_nodup _ _ _ hn),
          fun k hk => i2 k (Directory.mem_keys_set _ _ _ _ (Or.inr hk)), ?_⟩
        intro k hk
        rw [i3 k (fun x hx => hk x (List.mem_cons_of_mem _ hx))]
        exact Directory.get_set_of_ne _ _ (hk l (List.mem_cons_self _ _) hK)

/-- A line without `[Peer]` acts on key variable, pending name and directory in the same
way whatever the flag. -/
theorem stepLine_content (s t : BuilderState) (l : Str) (hP : Contains l kwPeer = false)
    (h : s.content = t.content) :
    (stepLine s l).map BuilderState.content = (stepLine t l).map BuilderState.content := by
  obtain ⟨b1, pk1, pn1, d1⟩ := s
  obtain ⟨b2, pk2, pn2, d2⟩ := t
  simp only [BuilderState.content, Prod.mk.injEq] at h
  obtain ⟨rfl, rfl, rfl⟩ := h
  unfold stepLine
  simp only [hP, Bool.false_and, Bool.false_eq_true, if_false]
  split
  · rfl
  · split
    · cases index (Split (chr '=') l) 1 <;> rfl
    · split
      · cases index (Split (chr '=') l) 1 <;> rfl
      · rfl

/-- A line with `[Peer]` and none of the other keywords changes the flag at most. -/
theorem stepLine_marker_content (s : BuilderState) (l : Str) (hP : Contains l kwPeer = true)
    (hA : Contains l kwAllowedIPs = false) (hN : Contains l kwFriendlyName = false)
    (hK : Contains l kwPublicKey = false) :
    ∃ s', stepLine s l = .ok s' ∧ s'.content = s.content := by
  cases hb : s.inBlock with
  | true => exact ⟨s, stepLine_marker_inside s l hb hA hN hK, rfl⟩
  | false => exact ⟨{ s with inBlock := true }, by simp [stepLine, hP, hb], rfl⟩

theorem runLines_withoutPeerLines (lines : List Str)
    (h : ∀ l ∈ lines, Contains l kwPeer = true →
      Contains l kwAllowedIPs = false ∧ Contains l kwFriendlyName = false ∧
        Contains l kwPublicKey = false)
    (s t : BuilderState) (hst : s.content = t.content) :
    (runLines s lines).map BuilderState.content
      = (runLines t (withoutPeerLines lines)).map BuilderState.content := by
  induction lines generalizing s t with
  | nil =>
    simp only [withoutPeerLines, List.filter_nil, runLines, Except.map, hst]
  | cons l ls ih =>
    have hls := fun x hx => h x (List.mem_cons_of_mem l hx)
    cases hP : Contains l kwPeer with
    | true =>
      obtain ⟨hA, hN, hK⟩ := h l (List.mem_cons_self _ _) hP
      obtain ⟨s1, hs1, hc1⟩ := stepLine_marker_content s l hP hA hN hK
      have hf : withoutPeerLines (l :: ls) = withoutPeerLines ls := by
        simp [withoutPeerLines, hP]
      rw [hf, runLines_cons_ok ls hs1]
      exact ih hls s1 t (hc1.trans hst)
    | false =>
      have hf : withoutPeerLines (l :: ls) = l :: withoutPeerLines ls := by
        simp [withoutPeerLines, hP]
      rw [hf]
      have hstep := stepLine_content s t l hP hst
      simp only [runLines]
      cases hs : stepLine s l with
      | error e =>
        cases ht : stepLine t l with
        | error e' =>
          rw [hs, ht] at hstep
          simpa [Except.map] using hstep
        | ok t1 =>
          rw [hs, ht] at hstep
          simp [Except.map] at hstep
      | ok s1 =>
        cases ht : stepLine t l with
        | error e' =>
          rw [hs, ht] at hstep
          simp [Except.map] at hstep
        | ok t1 =>
          rw [hs, ht] at hstep
          simp only [Except.map, Except.ok.injEq] at hstep
          exact ih hls s1 t1 hstep

theorem buildDirectory_eq_map (lines : List Str) :
    buildDirectory lines
      = (Except.map BuilderState.content (runLines BuilderState.init lines)).map
          (fun c => c.2.2) := by
  unfold buildDirectory
  cases runLines BuilderState.init lines <;> rfl

theorem MustNewConstMetric_peer_valid {F : Type} (desc : Desc) (hd : desc ≠ .counterconfig)
    (valueType : ValueType) (value : F) (a b c : Str) (ha : ValidString a = true)
    (hb : ValidString b = true) (hc : ValidString c = true) :
    MustNewConstMetric desc valueType value [a, b, c]
      = .ok { desc := desc, valueType := valueType, value := value,
              labelValues := [a, b, c] } := by
  cases desc <;>
    simp [MustNewConstMetric, Desc.variableLabels, List.find?, ha, hb, hc] at hd ⊢

theorem MustNewConstMetric_peer_invalid {F : Type} (desc : Desc) (hd : desc ≠ .counterconfig)
    (valueType : ValueType) (value : F) (a b c : Str)
    (h : ¬ (ValidString a = true ∧ ValidString b = true ∧ ValidString c = true)) :
    ∃ v, ValidString v = false ∧
      MustNewConstMetric desc valueType value [a, b, c] = .error (.invalidLabelValue v) := by
  cases ha : ValidString a with
  | false =>
    exact ⟨a, ha, by
      cases desc <;> simp [MustNewConstMetric, Desc.variableLabels, List.find?, ha] at hd ⊢⟩
  | true =>
    cases hb : ValidString b with
    | false =>
      exact ⟨b, hb, by
        cases desc <;>
          simp [MustNewConstMetric, Desc.variableLabels, List.find?, ha, hb] at hd ⊢⟩
    | true =>
      cases hc : ValidString c with
      | false =>
        exact ⟨c, hc, by
          cases desc <;>
            simp [MustNewConstMetric, Desc.variableLabels, List.find?, ha, hb, hc] at hd ⊢⟩
      | true => exact absurd ⟨ha, hb, hc⟩ h

theorem MustNewConstMetric_summary {F : Type} (value : F) (Interface : Str) :
    MustNewConstMetric .counterconfig .GaugeValue value [Interface]
      = if ValidString Interface = true then
          .ok { desc := .counterconfig, valueType := .GaugeValue, value := value,
                labelValues := [Interface] }
        else .error (.invalidLabelValue Interface) := by
  cases h : ValidString Interface <;>
    simp [MustNewConstMetric, Desc.variableLabels, List.find?, h]

/-- A line with its fields 0, 4, 5, 6 present and valid label values: the three metrics
are built and sent. -/
theorem processLine_eq {F : Type} (fl : Float64Ops F) (Interface : Str)
    (peerNames : Directory) (line k f4 f5 f6 : Str)
    (h0 : (Fields line)[0]? = some k) (h4 : (Fields line)[4]? = some f4)
    (h5 : (Fields line)[5]? = some f5) (h6 : (Fields line)[6]? = some f6)
    (hI : ValidString Interface = true) (hk : ValidString k = true)
    (hn : ValidString (peerNames.get k).peerName = true) :
    processLine fl Interface peerNames line
      = { sent := peerMetrics fl Interface peerNames k f4 f5 f6, panic := none } := by
  have m1 := MustNewConstMetric_peer_valid (F := F) .bytesReceived (by decide)
    .CounterValue (parseOrZero fl f5) Interface k (peerNames.get k).peerName hI hk hn
  have m2 := MustNewConstMetric_peer_valid (F := F) .bytesSent (by decide)
    .CounterValue (parseOrZero fl f6) Interface k (peerNames.get k).peerName hI hk hn
  have m3 := MustNewConstMetric_peer_valid (F := F) .lasthandshake (by decide)
    .GaugeValue (parseOrZero fl f4) Interface k (peerNames.get k).peerName hI hk hn
  simp only [processLine, index, h0, h4, h5, h6, m1, m2, m3, peerMetrics]

/-- A line with its fields 0, 4, 5, 6 present and a label value that is not valid UTF-8:
the first metric cannot be built and nothing is sent. -/
theorem processLine_invalid {F : Type} (fl : Float64Ops F) (Interface : Str)
    (peerNames : Directory) (line k f4 f5 f6 : Str)
    (h0 : (Fields line)[0]? = some k) (h4 : (Fields line)[4]? = some f4)
    (h5 : (Fields line)[5]? = some f5) (h6 : (Fields line)[6]? = some f6)
    (h : ¬ (ValidString Interface = true ∧ ValidString k = true ∧
      ValidString (peerNames.get k).peerName = true)) :
    ∃ v, ValidString v = false ∧
      processLine fl Interface peerNames line
        = { sent := [], panic := some (.invalidLabelValue v) } := by
  obtain ⟨v, hv, hm⟩ := MustNewConstMetric_peer_invalid (F := F) .bytesReceived (by decide)
    .CounterValue (parseOrZero fl f5) Interface k (peerNames.get k).peerName h
  exact ⟨v, hv, by simp only [processLine, index, h0, h4, h5, h6, hm]⟩

theorem exists_fields_of_length {line : Str} (h : 7 ≤ (Fields line).length) :
    ∃ k f4 f5 f6, (Fields line)[0]? = some k ∧ (Fields line)[4]? = some f4 ∧
      (Fields line)[5]? = some f5 ∧ (Fields line)[6]? = some f6 := by
  match hf : Fields line, h with
  | k :: _ :: _ :: _ :: f4 :: f5 :: f6 :: _, _ => exact ⟨k, f4, f5, f6, by simp⟩

theorem processLine_error_of_short {F : Type} (fl : Float64Ops F) (Interface : Str)
    (peerNames : Directory) (line : Str) (h : (Fields line).length < 7) :
    ∃ i n, processLine fl Interface peerNames line
      = { sent := [], panic := some (.indexOutOfRange i n) } := by
  unfold processLine
  match hf : Fields line, h with
  | [], _ => exact ⟨_, _, rfl⟩
  | [_], _ => exact ⟨_, _, rfl⟩
  | [_, _], _ => exact ⟨_, _, rfl⟩
  | [_, _, _], _ => exact ⟨_, _, rfl⟩
  | [_, _, _, _], _ => exact ⟨_, _, rfl⟩
  | [_, _, _, _, _], _ => exact ⟨_, _, rfl⟩
  | [_, _, _, _, _, _], _ => exact ⟨_, _, rfl⟩
  | _ :: _ :: _ :: _ :: _ :: _ :: _ :: _, h' => exact absurd h' (by simp)

/-- The body of the loop ends without panic exactly on the lines with seven fields and
valid label values, and then sends the three metrics of the line. -/
theorem processLine_of_no_panic {F : Type} (fl : Float64Ops F) (Interface : Str)
    (peerNames : Directory) (line : Str)
    (h : (processLine fl Interface peerNames line).panic = none) :
    ∃ k f4 f5 f6, (Fields line)[0]? = some k ∧ (Fields line)[4]? = some f4 ∧
      (Fields line)[5]? = some f5 ∧ (Fields line)[6]? = some f6 ∧
      ValidString Interface = true ∧ ValidString k = true ∧
      ValidString (peerNames.get k).peerName = true ∧
      processLine fl Interface peerNames line
        = { sent := peerMetrics fl Interface peerNames k f4 f5 f6, panic := none } := by
  by_cases h7 : 7 ≤ (Fields line).length
  · obtain ⟨k, f4, f5, f6, h0, h4, h5, h6⟩ := exists_fields_of_length h7
    by_cases hv : ValidString Interface = true ∧ ValidString k = true ∧
        ValidString (peerNames.get k).peerName = true
    · exact ⟨k, f4, f5, f6, h0, h4, h5, h6, hv.1, hv.2.1, hv.2.2,
        processLine_eq fl Interface peerNames line k f4 f5 f6 h0 h4 h5 h6 hv.1 hv.2.1 hv.2.2⟩
    · obtain ⟨v, -, hp⟩ :=
        processLine_invalid fl Interface peerNames line k f4 f5 f6 h0 h4 h5 h6 hv
      rw [hp] at h
      cases h
  · obtain ⟨i, n, hp⟩ := processLine_error_of_short fl Interface peerNames line
      (Nat.lt_of_not_le h7)
    rw [hp] at h
    cases h

theorem peerMetrics_facts {F : Type} (fl : Float64Ops F) (Interface : Str)
    (peerNames : Directory) (k f4 f5 f6 : Str) :
    (peerMetrics fl Interface peerNames k f4 f5 f6).map publicKeyLabel
        = List.replicate 3 (some k) ∧
    (peerMetrics fl Interface peerNames k f4 f5 f6).length = 3 ∧
    ∀ m ∈ peerMetrics fl Interface peerNames k f4 f5 f6, m.desc ≠ .counterconfig := by
  refine ⟨by simp [peerMetrics, publicKeyLabel, List.replicate], by simp [peerMetrics], ?_⟩
  intro m hm
  simp only [peerMetrics, List.mem_cons, List.mem_singleton, List.not_mem_nil, or_false] at hm
  rcases hm with rfl | rfl | rfl <;> simp

/-- What the metrics of a line look like when the body of the loop ends without panic. -/
theorem lineMetrics_of_no_panic {F : Type} (fl : Float64Ops F) (Interface : Str)
    (peerNames : Directory) (line : Str)
    (h : (processLine fl Interface peerNames line).panic = none) :
    (lineMetrics fl Interface peerNames line).map publicKeyLabel
        = List.replicate 3 ((Fields line)[0]?) ∧
    (lineMetrics fl Interface peerNames line).length = 3 ∧
    ∀ m ∈ lineMetrics fl Interface peerNames line, m.desc ≠ .counterconfig := by
  obtain ⟨k, f4, f5, f6, h0, -, -, -, -, -, -, hp⟩ :=
    processLine_of_no_panic fl Interface peerNames line h
  have hf := peerMetrics_facts fl Interface peerNames k f4 f5 f6
  simp only [lineMetrics, hp, h0]
  exact hf

/-- A line with at least seven fields and valid label values is processed without panic. -/
theorem processLine_no_panic_of_valid {F : Type} (fl : Float64Ops F) (Interface : Str)
    (peerNames : Directory) (line : Str) (h7 : 7 ≤ (Fields line).length)
    (hI : ValidString Interface = true)
    (hv : ∀ k, (Fields line)[0]? = some k →
      ValidString k = true ∧ ValidString (peerNames.get k).peerName = true) :
    (processLine fl Interface peerNames line).panic = none := by
  obtain ⟨k, f4, f5, f6, h0, h4, h5, h6⟩ := exists_fields_of_length h7
  rw [processLine_eq fl Interface peerNames line k f4 f5 f6 h0 h4 h5 h6 hI (hv k h0).1
    (hv k h0).2]

/-- The loop when the body ends without panic on every non-empty line. -/
theorem rangeLoop_of_no_panic {F : Type} (fl : Float64Ops F) (Interface : Str)
    (peerNames : Directory) (lines : List Str)
    (h : ∀ l ∈ nonEmptyLines lines, (processLine fl Interface peerNames l).panic = none) :
    rangeLoop fl Interface peerNames lines =
      { count := (nonEmptyLines lines).length,
        sent := (nonEmptyLines lines).flatMap (lineMetrics fl Interface peerNames),
        panic := none } := by
  induction lines with
  | nil => simp [rangeLoop, nonEmptyLines]
  | cons l ls ih =>
    by_cases hl : l = []
    · subst hl
      have hls : ∀ x ∈ nonEmptyLines ls,
          (processLine fl Interface peerNames x).panic = none := by
        intro x hx
        exact h x (by simpa [nonEmptyLines] using hx)
      simpa [rangeLoop, nonEmptyLines] using ih hls
    · have hne : nonEmptyLines (l :: ls) = l :: nonEmptyLines ls := by
        simp [nonEmptyLines, hl]
      rw [hne] at h ⊢
      have hp := h l (List.mem_cons_self _ _)
      have hls := ih (fun x hx => h x (List.mem_cons_of_mem _ hx))
      simp [rangeLoop, hl, hp, hls, lineMetrics]

theorem sevenFields_nonEmptyLines {lines : List Str} (h : SevenFields lines) :
    ∀ l ∈ nonEmptyLines lines, 7 ≤ (Fields l).length := by
  intro l hl
  simp only [nonEmptyLines, List.mem_filter, decide_eq_true_eq] at hl
  exact h l hl.1 hl.2

theorem validLabels_iff (Interface : Str) (peerNames : Directory) (lines : List Str) :
    validLabels Interface peerNames lines = true ↔
      ValidString Interface = true ∧
      ∀ l ∈ lines, ∀ k, (Fields l)[0]? = some k →
        ValidString k = true ∧ ValidString (peerNames.get k).peerName = true := by
  simp only [validLabels, Bool.and_eq_true, List.all_eq_true]
  constructor
  · rintro ⟨hI, h⟩
    refine ⟨hI, fun l hl k hk => ?_⟩
    have := h l hl
    rw [hk] at this
    simpa using this
  · rintro ⟨hI, h⟩
    refine ⟨hI, fun l hl => ?_⟩
    cases hk : (Fields l)[0]? with
    | none => rfl
    | some k => simpa using h l hl k hk

theorem no_panic_of_valid {F : Type} (fl : Float64Ops F) (Interface : Str)
    (peerNames : Directory) (lines : List Str) (h7 : SevenFields lines)
    (hv : validLabels Interface peerNames lines = true) :
    ∀ l ∈ nonEmptyLines lines, (processLine fl Interface peerNames l).panic = none := by
  rw [validLabels_iff] at hv
  intro l hl
  have hmem : l ∈ lines := by
    simp only [nonEmptyLines, List.mem_filter] at hl
    exact hl.1
  exact processLine_no_panic_of_valid fl Interface peerNames l
    (sevenFields_nonEmptyLines h7 l hl) hv.1 (hv.2 l hmem)

theorem validLabels_interface {Interface : Str} {peerNames : Directory} {lines : List Str}
    (hv : validLabels Interface peerNames lines = true) : ValidString Interface = true :=
  ((validLabels_iff Interface peerNames lines).mp hv).1

/-- The Status Joiner when the loop body ends without panic on every non-empty line and
the interface name is valid UTF-8: the metrics of the lines, then the summary. -/
theorem statusJoiner_of_no_panic {F : Type} (fl : Float64Ops F) (Interface : Str)
    (peerNames : Directory) (output : Str) (hI : ValidString Interface = true)
    (h : ∀ l ∈ nonEmptyLines (dataLines output),
      (processLine fl Interface peerNames l).panic = none) :
    statusJoiner fl Interface peerNames { output := output, failed := false } =
      { sent := (nonEmptyLines (dataLines output)).flatMap
                  (lineMetrics fl Interface peerNames) ++
                [{ desc := .counterconfig, valueType := .GaugeValue,
                   value := fl.ofInt (nonEmptyLines (dataLines output)).length,
                   labelValues := [Interface] }],
        panic := none } := by
  have hr := rangeLoop_of_no_panic fl Interface peerNames _ h
  simp only [dataLines] at hr
  simp only [statusJoiner, dataLines, hr, MustNewConstMetric_summary, hI]
  simp

theorem collect_some_eq {F : Type} (fl : Float64Ops F) (Interface : Str)
    (lines : List Str) (peerNames : Directory) (cmd : CmdResult)
    (hb : buildDirectory lines = .ok peerNames) :
    Collect fl Interface (some lines) cmd = statusJoiner fl Interface peerNames cmd := by
  simp only [Collect, hb]

theorem flatMap_lineMetrics_facts {F : Type} (fl : Float64Ops F) (Interface : Str)
    (peerNames : Directory) (lines : List Str)
    (h : ∀ l ∈ lines, (processLine fl Interface peerNames l).panic = none) :
    (∀ m ∈ lines.flatMap (lineMetrics fl Interface peerNames), m.desc ≠ .counterconfig) ∧
    (lines.flatMap (lineMetrics fl Interface peerNames)).length = 3 * lines.length ∧
    (everyThird (lines.flatMap (lineMetrics fl Interface peerNames))).map publicKeyLabel
        = lines.map (fun l => (Fields l)[0]?) ∧
    (lines.flatMap (lineMetrics fl Interface peerNames)).map publicKeyLabel
        = lines.flatMap (fun l => List.replicate 3 ((Fields l)[0]?)) := by
  induction lines with
  | nil => simp [everyThird]
  | cons l ls ih =>
    obtain ⟨i1, i2, i3, i4⟩ := ih (fun x hx => h x (List.mem_cons_of_mem _ hx))
    obtain ⟨hk, hlen, hd⟩ :=
      lineMetrics_of_no_panic fl Interface peerNames l (h l (List.mem_cons_self _ _))
    match hm : lineMetrics fl Interface peerNames l, hlen with
    | [a, b, c], _ =>
      rw [hm] at hk hd
      simp only [List.map_cons, List.map_nil, List.replicate, List.cons.injEq, and_true] at hk
      obtain ⟨ha, hb, hc⟩ := hk
      refine ⟨?_, ?_, ?_, ?_⟩
      · intro m hmem
        rw [List.flatMap_cons, hm] at hmem
        rcases List.mem_append.mp hmem with h1 | h1
        · exact hd m h1
        · exact i1 m h1
      · rw [List.flatMap_cons, hm, List.length_append, i2]
        simp only [List.length_cons, List.length_nil]
        omega
      · simp [List.flatMap_cons, hm, everyThird, i3, ha]
      · simp [List.flatMap_cons, hm, i4, ha, hb, hc, List.replicate]

/-- With at least seven fields on every non-empty line, the loop never stops on an index
out of range. -/
theorem rangeLoop_no_index_panic {F : Type} (fl : Float64Ops F) (Interface : Str)
    (peerNames : Directory) (lines : List Str) (h7 : SevenFields lines) (i n : Nat) :
    (rangeLoop fl Interface peerNames lines).panic ≠ some (.indexOutOfRange i n) := by
  induction lines with
  | nil => simp [rangeLoop]
  | cons l ls ih =>
    have hls : SevenFields ls := fun x hx => h7 x (List.mem_cons_of_mem _ hx)
    by_cases hl : l = []
    · subst hl
      simpa [rangeLoop] using ih hls
    · have hlen := h7 l (List.mem_cons_self _ _) hl
      obtain ⟨k, f4, f5, f6, h0, h4, h5, h6⟩ := exists_fields_of_length hlen
      by_cases hv : ValidString Interface = true ∧ ValidString k = true ∧
          ValidString (peerNames.get k).peerName = true
      · have hp := processLine_eq fl Interface peerNames l k f4 f5 f6 h0 h4 h5 h6
          hv.1 hv.2.1 hv.2.2
        simpa [rangeLoop, hl, hp] using ih hls
      · obtain ⟨v, -, hp⟩ :=
          processLine_invalid fl Interface peerNames l k f4 f5 f6 h0 h4 h5 h6 hv
        simp [rangeLoop, hl, hp]

theorem statusJoiner_no_index_panic {F : Type} (fl : Float64Ops F) (Interface : Str)
    (peerNames : Directory) (output : Str) (h7 : SevenFields (dataLines output))
    (i n : Nat) :
    (statusJoiner fl Interface peerNames { output := output, failed := false }).panic
      ≠ some (.indexOutOfRange i n) := by
  have hr := rangeLoop_no_index_panic fl Interface peerNames _ h7 i n
  simp only [dataLines, List.drop_one] at hr
  simp only [statusJoiner, Bool.false_eq_true, if_false, List.drop_one]
  cases hp : (rangeLoop fl Interface peerNames (Split (chr '\n') output).tail).panic with
  | some e =>
    rw [hp] at hr
    simpa using hr
  | none =>
    simp only [MustNewConstMetric_summary]
    cases hI : ValidString Interface <;> simp

theorem statusJoiner_eq_of_dataLines {F : Type} (fl : Float64Ops F) (Interface : Str)
    (peerNames : Directory) (out1 out2 : Str) (h : dataLines out1 = dataLines out2) :
    statusJoiner fl Interface peerNames { output := out1, failed := false }
      = statusJoiner fl Interface peerNames { output := out2, failed := false } := by
  unfold dataLines at h
  simp only [statusJoiner, h]

theorem rangeLoop_skip_empty {F : Type} (fl : Float64Ops F) (Interface : Str)
    (peerNames : Directory) (xs ys : List Str) :
    rangeLoop fl Interface peerNames (xs ++ [] :: ys)
      = rangeLoop fl Interface peerNames (xs ++ ys) := by
  induction xs with
  | nil => simp [rangeLoop]
  | cons x xs ih =>
    simp only [List.cons_append]
    rw [rangeLoop, rangeLoop, ih]

/-- A line is read without panic when it has an `=` in case it contains `friendly_name` or
`PublicKey`. -/
theorem stepLine_ok_of_equals (s : BuilderState) (l : Str)
    (h : (Contains l kwFriendlyName = true ∨ Contains l kwPublicKey = true) → (chr '=') ∈ l) :
    ∃ s', stepLine s l = .ok s' := by
  unfold stepLine
  split
  · exact ⟨_, rfl⟩
  · split
    · exact ⟨_, rfl⟩
    · split
      · rename_i hN
        rw [index_Split_secondPiece l (h (Or.inl hN))]
        exact ⟨_, rfl⟩
      · split
        · rename_i hK
          rw [index_Split_secondPiece l (h (Or.inr hK))]
          exact ⟨_, rfl⟩
        · exact ⟨_, rfl⟩

theorem runLines_ok_of_equals (ls : List Str)
    (h : ∀ l ∈ ls, (Contains l kwFriendlyName = true ∨ Contains l kwPublicKey = true) →
      (chr '=') ∈ l)
    (s : BuilderState) : ∃ s', runLines s ls = .ok s' := by
  induction ls generalizing s with
  | nil => exact ⟨s, rfl⟩
  | cons l ls ih =>
    obtain ⟨s1, hs1⟩ := stepLine_ok_of_equals s l (h l (List.mem_cons_self _ _))
    obtain ⟨s', hs'⟩ := ih (fun x hx => h x (List.mem_cons_of_mem _ hx)) s1
    exact ⟨s', by rw [runLines_cons_ok ls hs1, hs']⟩

theorem ValidString_of_subset {a b : Str} (h : a ⊆ b) (hb : ValidString b = true) :
    ValidString a = true := by
  unfold ValidString at hb ⊢
  rw [List.all_eq_true] at hb ⊢
  exact fun x hx => hb x (h hx)

theorem TrimSpace_subset (n : Str) : TrimSpace n ⊆ n := by
  intro x hx
  unfold TrimSpace at hx
  have h1 := (List.dropWhile_sublist isSpace (l := (n.dropWhile isSpace).reverse)).subset
    (List.mem_reverse.mp hx)
  exact (List.dropWhile_sublist isSpace).subset (List.mem_reverse.mp h1)

theorem ValidString_TrimSpace (n : Str) (h : ValidString n = true) :
    ValidString (TrimSpace n) = true :=
  ValidString_of_subset (TrimSpace_subset n) h

theorem ValidString_append (a b : Str) (ha : ValidString a = true)
    (hb : ValidString b = true) : ValidString (a ++ b) = true := by
  unfold ValidString at ha hb ⊢
  rw [List.all_append, ha, hb]
  rfl

/-! ## Claims -/

/-- C1, as stated, fails: in the one block `[Peer]`, `PublicKey = abc123`,
`friendly_name = alice`, `PublicKey = abc123`, `AllowedIPs = 10.0.0.1/32` every line has
at most one keyword, the values have no `=` and the keys are distinct across blocks; the
first `PublicKey` line comes before any `friendly_name` line of its block, yet its key
maps to `alice`, not to the empty name, because the second line with the same key
overwrites the entry. -/
theorem name_resolution_counterexample :
    wellFormedAcrossBlocks []
        [{ opener := str "[Peer]",
           body := [str "PublicKey = abc123", str "friendly_name = alice",
                    str "PublicKey = abc123"],
           closer := str "AllowedIPs = 10.0.0.1/32", trailer := [] }] = true ∧
    Contains (str "PublicKey = abc123") kwPublicKey = true ∧
    statedKey (str "PublicKey = abc123") = str "abc123=" ∧
    buildDirectory (configLines []
        [{ opener := str "[Peer]",
           body := [str "PublicKey = abc123", str "friendly_name = alice",
                    str "PublicKey = abc123"],
           closer := str "AllowedIPs = 10.0.0.1/32", trailer := [] }])
      = .ok [(str "abc123=", { peerName := str "alice", peerKey := str "abc123=" })] := by
  decide

/-- C1, amended: for every well-formed configuration (lines without keywords, then peer
blocks, each opened by a line containing `[Peer]` and closed by a line containing
`AllowedIPs`, every line with at most one of the four keywords, every name and key line
with a value that has no `=`, the normalized keys of all `PublicKey` lines pairwise
distinct, within a block as well as across blocks), the builder returns a directory in
which, for every `PublicKey` line of every block, the normalized key maps to the trimmed
value of the most recent `friendly_name` line before it in the same block, and to the
empty name when no `friendly_name` line precedes it in its block. -/
theorem name_resolution (header : List Str) (blocks : List Block)
    (hwf : wellFormedConfig header blocks = true) :
    ∃ d, buildDirectory (configLines header blocks) = .ok d ∧
      ∀ b ∈ blocks, ∀ (pre post : List Str) (keyLine : Str),
        b.body = pre ++ keyLine :: post → Contains keyLine kwPublicKey = true →
        (∀ (before mid : List Str) (nameLine : Str),
            pre = before ++ nameLine :: mid → Contains nameLine kwFriendlyName = true →
            (∀ l ∈ mid, Contains l kwFriendlyName = false) →
            d.get (statedKey keyLine)
              = { peerName := statedName nameLine, peerKey := statedKey keyLine }) ∧
        ((∀ l ∈ pre, Contains l kwFriendlyName = false) →
            d.get (statedKey keyLine) = { peerName := [], peerKey := statedKey keyLine }) := by
  simp only [wellFormedConfig, Bool.and_eq_true, decide_eq_true_eq] at hwf
  obtain ⟨⟨hh, hb⟩, hnd⟩ := hwf
  have hb' : ∀ b ∈ blocks, b.wellFormed = true := List.all_eq_true.mp hb
  obtain ⟨s', hs', -, -, hk⟩ := runLines_blocks blocks hb' hnd BuilderState.init rfl
  have hrun : runLines BuilderState.init (configLines header blocks) = .ok s' := by
    rw [configLines, runLines_append_ok _ (runLines_plain _ _ hh), hs']
  refine ⟨s'.peerNames, by rw [buildDirectory, hrun], ?_⟩
  intro b hbm pre post keyLine hsplit hkey
  have := hk b hbm pre post keyLine hsplit hkey
  constructor
  · intro before mid nameLine hpre hname hmid
    rw [this, hpre, pendingAfter_last_name [] before mid nameLine hname hmid]
  · intro hnone
    rw [this, pendingAfter_of_no_name [] pre hnone]

theorem name_resolution_witness :
    ∃ d, buildDirectory (configLines sampleHeader sampleBlocks) = .ok d ∧
      ∀ b ∈ sampleBlocks, ∀ (pre post : List Str) (keyLine : Str),
        b.body = pre ++ keyLine :: post → Contains keyLine kwPublicKey = true →
        (∀ (before mid : List Str) (nameLine : Str),
            pre = before ++ nameLine :: mid → Contains nameLine kwFriendlyName = true →
            (∀ l ∈ mid, Contains l kwFriendlyName = false) →
            d.get (statedKey keyLine)
              = { peerName := statedName nameLine, peerKey := statedKey keyLine }) ∧
        ((∀ l ∈ pre, Contains l kwFriendlyName = false) →
            d.get (statedKey keyLine) = { peerName := [], peerKey := statedKey keyLine }) :=
  name_resolution sampleHeader sampleBlocks (by decide)

/-- C2, as stated, fails, in four ways. With the name `AllowedIPs` (which has no `=`) the
name line is taken for the end-of-block sentinel and the key `abc123=` is stored with the
empty name. When a later block writes the same key again, without a name, the entry is
overwritten with the empty name. A data line whose only field is the key yields no
sample: `fields[4]` is out of range. And with a name that is not valid UTF-8 (`Jos`
followed by the byte `0xE9`) the entry is stored, but no sample is sent for a line with
that key: the first metric cannot be built. -/
theorem key_normalization_counterexample :
    (buildDirectory [str "[Peer]", str "friendly_name = AllowedIPs",
        str "PublicKey = abc123="]
      = .ok [(str "abc123=", { peerName := [], peerKey := str "abc123=" })] ∧
      TrimSpace (str "AllowedIPs") ≠ []) ∧
    buildDirectory [str "[Peer]", str "friendly_name = alice", str "PublicKey = abc123=",
        str "AllowedIPs = 10.0.0.1/32", str "[Peer]", str "PublicKey = abc123=",
        str "AllowedIPs = 10.0.0.2/32"]
      = .ok [(str "abc123=", { peerName := [], peerKey := str "abc123=" })] ∧
    processLine natOps (str "wg0")
        [(str "abc123=", { peerName := str "alice", peerKey := str "abc123=" })]
        (str "abc123=")
      = { sent := [], panic := some (.indexOutOfRange 4 1) } ∧
    (buildDirectory [str "[Peer]", str "friendly_name = Jos" ++ [raw 105],
        str "PublicKey = abc123="]
      = .ok [(str "abc123=",
          { peerName := str "Jos" ++ [raw 105], peerKey := str "abc123=" })] ∧
      processLine natOps (str "wg0")
          [(str "abc123=", { peerName := str "Jos" ++ [raw 105], peerKey := str "abc123=" })]
          (str "abc123= (none) (none) (none) 1 2 3")
        = { sent := [], panic := some (.invalidLabelValue (str "Jos" ++ [raw 105])) }) := by
  decide

/-- C2, amended: let the key body `k` have no `=`, no white space and neither `AllowedIPs`
nor `friendly_name` in it, let the name `n` have no `=` and no `AllowedIPs` in it, and let
the interface name, `k` and `n` be valid UTF-8. Take a configuration in which every line
that contains `friendly_name` or `PublicKey` has an `=`, made of any lines, then `[Peer]`,
`friendly_name = n`, `PublicKey = k=`, then any lines among which no line containing
`PublicKey` writes the key `k=` again. Then the builder returns a directory that holds
exactly one entry under the string `k=`, with the trimmed `n` as name, and every dump
line with at least seven fields whose field 0 is `k=` yields three samples with the
labels interface, `k=`, trimmed `n`. -/
theorem key_normalization_join {F : Type} (fl : Float64Ops F) (Interface : Str)
    (k n : Str) (pre post : List Str)
    (hk1 : (chr '=') ∉ k) (hk2 : ∀ c ∈ k, isSpace c = false)
    (hk4 : Contains k kwAllowedIPs = false) (hk5 : Contains k kwFriendlyName = false)
    (hn1 : (chr '=') ∉ n) (hn2 : Contains n kwAllowedIPs = false)
    (hI : ValidString Interface = true) (hkv : ValidString k = true)
    (hnv : ValidString n = true)
    (hpre : ∀ l ∈ pre, (Contains l kwFriendlyName = true ∨ Contains l kwPublicKey = true) →
      (chr '=') ∈ l)
    (hpost : ∀ l ∈ post, (Contains l kwFriendlyName = true ∨ Contains l kwPublicKey = true) →
      (chr '=') ∈ l)
    (hlast : ∀ l ∈ post, Contains l kwPublicKey = true → writtenKey l ≠ k ++ str "=") :
    ∃ d, buildDirectory (pre ++ str "[Peer]" :: (str "friendly_name = " ++ n) ::
            (str "PublicKey = " ++ k ++ str "=") :: post) = .ok d ∧
      d.filter (fun e => decide (e.1 = k ++ str "="))
        = [(k ++ str "=", { peerName := TrimSpace n, peerKey := k ++ str "=" })] ∧
      d.get (k ++ str "=") = { peerName := TrimSpace n, peerKey := k ++ str "=" } ∧
      ∀ line, (Fields line)[0]? = some (k ++ str "=") → 7 ≤ (Fields line).length →
        ∃ received sent handshake : F,
          processLine fl Interface d line
            = { sent := [ { desc := .bytesReceived, valueType := .CounterValue,
                            value := received,
                            labelValues := [Interface, k ++ str "=", TrimSpace n] },
                          { desc := .bytesSent, valueType := .CounterValue, value := sent,
                            labelValues := [Interface, k ++ str "=", TrimSpace n] },
                          { desc := .lasthandshake, valueType := .GaugeValue,
                            value := handshake,
                            labelValues := [Interface, k ++ str "=", TrimSpace n] } ],
                panic := none } := by
  obtain ⟨s0, hs0⟩ := runLines_ok_of_equals pre hpre BuilderState.init
  have hopen : ∃ s1, stepLine s0 (str "[Peer]") = .ok s1 ∧ s1.inBlock = true ∧
      s1.peerNames = s0.peerNames := by
    have c1 : Contains kwPeer kwPeer = true := by decide
    have c2 : Contains kwPeer kwAllowedIPs = false := by decide
    have c3 : Contains kwPeer kwFriendlyName = false := by decide
    have c4 : Contains kwPeer kwPublicKey = false := by decide
    change ∃ s1, stepLine s0 kwPeer = .ok s1 ∧ s1.inBlock = true ∧
      s1.peerNames = s0.peerNames
    cases hb : s0.inBlock with
    | false =>
      exact ⟨{ s0 with inBlock := true }, by simp [stepLine, c1, hb], rfl, rfl⟩
    | true => exact ⟨s0, by simp [stepLine, c2, c3, c4, hb], hb, rfl⟩
  obtain ⟨s1, hs1, hin, hd1⟩ := hopen
  have hmid := stepLine_name_then_key s1 k n hin hk1 hk2 hk4 hk5 hn1 hn2
  obtain ⟨s3, hs3⟩ := runLines_ok_of_equals post hpost
    { inBlock := true, pubKey := k ++ str "=", peername := TrimSpace n,
      peerNames := s1.peerNames.set (k ++ str "=")
        { peerName := TrimSpace n, peerKey := k ++ str "=" } }
  have hrun : runLines BuilderState.init
      (pre ++ str "[Peer]" :: (str "friendly_name = " ++ n) ::
        (str "PublicKey = " ++ k ++ str "=") :: post) = .ok s3 := by
    rw [runLines_append_ok _ hs0, runLines_cons_ok _ hs1,
      show (str "friendly_name = " ++ n) :: (str "PublicKey = " ++ k ++ str "=") :: post
        = [str "friendly_name = " ++ n, str "PublicKey = " ++ k ++ str "="] ++ post
        from rfl,
      runLines_append_ok _ hmid, hs3]
  obtain ⟨n0, -, -⟩ := runLines_directory_invariants pre _ s0 hs0
  obtain ⟨n3, m3, f3⟩ := runLines_directory_invariants post _ s3 hs3
  have hn0 : s0.peerNames.keys.Nodup := n0 (by simp [BuilderState.init, Directory.keys])
  have hn3 : s3.peerNames.keys.Nodup :=
    n3 (Directory.keys_set_nodup _ _ _ (hd1 ▸ hn0))
  have hm3 : k ++ str "=" ∈ s3.peerNames.keys :=
    m3 _ (Directory.mem_keys_set _ _ _ _ (Or.inl rfl))
  have hget : s3.peerNames.get (k ++ str "=")
      = { peerName := TrimSpace n, peerKey := k ++ str "=" } := by
    rw [f3 _ hlast]
    exact Directory.get_set_self _ _ _
  refine ⟨s3.peerNames, by rw [buildDirectory, hrun], ?_, hget, ?_⟩
  · rw [Directory.filter_key _ _ hn3 hm3, hget]
  · intro line h0 h7
    obtain ⟨k', f4, f5, f6, h0', h4, h5, h6⟩ := exists_fields_of_length h7
    rw [h0] at h0'
    cases h0'
    have hp := processLine_eq fl Interface s3.peerNames line (k ++ str "=") f4 f5 f6
      h0 h4 h5 h6 hI (ValidString_append _ _ hkv (by decide))
      (by rw [hget]; exact ValidString_TrimSpace n hnv)
    simp only [peerMetrics, hget] at hp
    exact ⟨parseOrZero fl f5, parseOrZero fl f6, parseOrZero fl f4, hp⟩

/-- C2, amended, at a configuration with an interface section, the block of `alice` and a
later block of another peer: the directory holds `abc123=` once, with the name `alice`,
and a data line of that key yields three samples named `alice`. -/
theorem key_normalization_join_witness :
    ∃ d, buildDirectory ([str "[Interface]", str "PrivateKey = xyz="] ++
            str "[Peer]" :: (str "friendly_name = " ++ str " alice ") ::
            (str "PublicKey = " ++ str "abc123" ++ str "=") ::
            [str "AllowedIPs = 10.0.0.1/32", str "[Peer]", str "friendly_name = bob",
              str "PublicKey = def456=", str "AllowedIPs = 10.0.0.2/32"]) = .ok d ∧
      d.filter (fun e => decide (e.1 = str "abc123" ++ str "="))
        = [(str "abc123" ++ str "=",
            { peerName := TrimSpace (str " alice "),
              peerKey := str "abc123" ++ str "=" })] ∧
      d.get (str "abc123" ++ str "=")
        = { peerName := TrimSpace (str " alice "), peerKey := str "abc123" ++ str "=" } ∧
      ∀ line, (Fields line)[0]? = some (str "abc123" ++ str "=") →
        7 ≤ (Fields line).length →
        ∃ received sent handshake : Nat,
          processLine natOps (str "wg0") d line
            = { sent := [ { desc := .bytesReceived, valueType := .CounterValue,
                            value := received,
                            labelValues := [str "wg0", str "abc123" ++ str "=",
                              TrimSpace (str " alice ")] },
                          { desc := .bytesSent, valueType := .CounterValue, value := sent,
                            labelValues := [str "wg0", str "abc123" ++ str "=",
                              TrimSpace (str " alice ")] },
                          { desc := .lasthandshake, valueType := .GaugeValue,
                            value := handshake,
                            labelValues := [str "wg0", str "abc123" ++ str "=",
                              TrimSpace (str " alice ")] } ],
                panic := none } :=
  key_normalization_join natOps (str "wg0") (str "abc123") (str " alice ")
    [str "[Interface]", str "PrivateKey = xyz="]
    [str "AllowedIPs = 10.0.0.1/32", str "[Peer]", str "friendly_name = bob",
      str "PublicKey = def456=", str "AllowedIPs = 10.0.0.2/32"]
    (by decide) (by decide) (by decide) (by decide) (by decide) (by decide) (by decide)
    (by decide) (by decide) (by decide) (by decide) (by decide)

/-- C3, failing input: an output with one non-empty line after the first, that line having
four fields. The counter is incremented for the line, then `fields[4]` is out of range:
the cycle ends in a panic and no summary metric is sent, whereas the claim says a summary
with count 1. -/
theorem summary_missing_on_short_line :
    (nonEmptyLines (dataLines (str "hdr\nabc123= (none) (none) (none)"))).length = 1 ∧
    Collect natOps (str "wg0") (some [])
        { output := str "hdr\nabc123= (none) (none) (none)", failed := false }
      = { sent := [], panic := some (.indexOutOfRange 4 4) } := by
  decide

/-- C4: when the status command returns an error, the cycle sends no metric at all, neither
a per-peer sample nor the summary, whatever the configuration file (readable or not) and
whatever output the command produced. -/
theorem collect_command_failure_sends_nothing {F : Type} (fl : Float64Ops F)
    (Interface : Str) (config : Option (List Str)) (output : Str) :
    (Collect fl Interface config { output := output, failed := true }).sent = [] := by
  cases config with
  | none => rfl
  | some lines =>
    simp only [Collect]
    cases buildDirectory lines with
    | error e => rfl
    | ok d => simp [statusJoiner]

/-- C6, failing input: a comment line that mentions `friendly_name` and has no `=` makes
the builder panic with an index out of range, although the file was opened. -/
theorem builder_panics_without_equals :
    buildDirectory [str "[Peer]", str "# friendly_name: alice",
        str "PublicKey = abc123", str "AllowedIPs = 10.0.0.1/32"]
      = .error (.indexOutOfRange 1 1) := by
  decide

/-- C7, as stated, fails: with the flag false, a line that contains both `[Peer]` and
`AllowedIPs` takes the first branch, which sets the flag and keeps the pending name. -/
theorem sentinel_counterexample :
    Contains (str "[Peer] # AllowedIPs = 10.0.0.1/32") kwAllowedIPs = true ∧
    stepLine { inBlock := false, pubKey := [], peername := str "bob", peerNames := [] }
        (str "[Peer] # AllowedIPs = 10.0.0.1/32")
      = .ok { inBlock := true, pubKey := [], peername := str "bob", peerNames := [] } := by
  decide

/-- C7, amended: for every builder state and every line that contains `AllowedIPs`, if the
flag is true or the line does not also contain `[Peer]`, processing the line succeeds and
leaves the pending name empty and the flag false (key variable and directory unchanged). -/
theorem sentinel_resets (s : BuilderState) (line : Str)
    (hA : Contains line kwAllowedIPs = true)
    (hP : s.inBlock = true ∨ Contains line kwPeer = false) :
    ∃ s', stepLine s line = .ok s' ∧ s'.peername = [] ∧ s'.inBlock = false ∧
      s'.peerNames = s.peerNames ∧ s'.pubKey = s.pubKey :=
  ⟨_, stepLine_sentinel s line hA hP, rfl, rfl, rfl, rfl⟩

theorem sentinel_resets_witness :
    ∃ s', stepLine { inBlock := true, pubKey := [], peername := str "bob", peerNames := [] }
        (str "AllowedIPs = 10.0.0.1/32") = .ok s' ∧ s'.peername = [] ∧ s'.inBlock = false ∧
      s'.peerNames = [] ∧ s'.pubKey = [] :=
  sentinel_resets
    { inBlock := true, pubKey := [], peername := str "bob", peerNames := [] }
    (str "AllowedIPs = 10.0.0.1/32") (by decide) (Or.inl rfl)

/-- C8, as stated, fails: on the four lines of the example the directory that is built
does not map `abc123=` to `alice`. -/
theorem example_config_counterexample :
    ¬ ∃ d, buildDirectory [str "[Peer]", str "PublicKey = abc123",
             str "friendly_name = alice", str "AllowedIPs = 10.0.0.1/32"] = .ok d ∧
           (d.get (str "abc123=")).peerName = str "alice" := by
  rintro ⟨d, hd, hn⟩
  rw [show buildDirectory [str "[Peer]", str "PublicKey = abc123",
        str "friendly_name = alice", str "AllowedIPs = 10.0.0.1/32"]
      = .ok [(str "abc123=", { peerName := [], peerKey := str "abc123=" })] by decide]
    at hd
  cases hd
  revert hn
  decide

/-- C8, amended: the four lines of the example yield a directory whose only entry maps the
key `abc123=` to the empty name, because the key line precedes the name line. -/
theorem example_config_directory :
    buildDirectory [str "[Peer]", str "PublicKey = abc123",
        str "friendly_name = alice", str "AllowedIPs = 10.0.0.1/32"]
      = .ok [(str "abc123=", { peerName := [], peerKey := str "abc123=" })] := by
  decide

/-- C9: for a line whose fields 0, 4, 5, 6 are `k`, `f4`, `f5`, `f6` (so it has at least
seven fields), whose fields 4, 5, 6 parse to `a`, `b`, `c` and whose label values are
valid UTF-8, the three metrics sent carry public key `k`, bytes received `b`, bytes sent
`c`, last handshake `a`, and the name the directory holds for `k`. In particular, when the
parser reads the decimal literals 1700000000, 1024 and 2048 as these numbers and the
interface name is valid UTF-8, a status output whose first data line is
`abc123= (none) (none) (none) 1700000000 1024 2048`, joined with the directory
`abc123=` -> `alice`, yields bytes received 1024, bytes sent 2048, last handshake
1700000000, each with name `alice`, followed by the summary with count 1. -/
theorem field_mapping {F : Type} (fl : Float64Ops F) (Interface : Str) :
    (∀ (peerNames : Directory) (line k f4 f5 f6 : Str) (a b c : F),
      (Fields line)[0]? = some k → (Fields line)[4]? = some f4 →
      (Fields line)[5]? = some f5 → (Fields line)[6]? = some f6 →
      fl.ParseFloat f4 = some a → fl.ParseFloat f5 = some b → fl.ParseFloat f6 = some c →
      ValidString Interface = true → ValidString k = true →
      ValidString (peerNames.get k).peerName = true →
      processLine fl Interface peerNames line
        = { sent := [ { desc := .bytesReceived, valueType := .CounterValue, value := b,
                        labelValues := [Interface, k, (peerNames.get k).peerName] },
                      { desc := .bytesSent, valueType := .CounterValue, value := c,
                        labelValues := [Interface, k, (peerNames.get k).peerName] },
                      { desc := .lasthandshake, valueType := .GaugeValue, value := a,
                        labelValues := [Interface, k, (peerNames.get k).peerName] } ],
            panic := none }) ∧
    (fl.ParseFloat (str "1700000000") = some (fl.ofInt 1700000000) →
      fl.ParseFloat (str "1024") = some (fl.ofInt 1024) →
      fl.ParseFloat (str "2048") = some (fl.ofInt 2048) →
      ValidString Interface = true →
      ∀ header : Str, (chr '\n') ∉ header →
      statusJoiner fl Interface
          [(str "abc123=", { peerName := str "alice", peerKey := str "abc123=" })]
          { output := header ++
              str "\nabc123= (none) (none) (none) 1700000000 1024 2048\n",
            failed := false }
        = { sent :=
              [ { desc := .bytesReceived, valueType := .CounterValue,
                  value := fl.ofInt 1024,
                  labelValues := [Interface, str "abc123=", str "alice"] },
                { desc := .bytesSent, valueType := .CounterValue,
                  value := fl.ofInt 2048,
                  labelValues := [Interface, str "abc123=", str "alice"] },
                { desc := .lasthandshake, valueType := .GaugeValue,
                  value := fl.ofInt 1700000000,
                  labelValues := [Interface, str "abc123=", str "alice"] },
                { desc := .counterconfig, valueType := .GaugeValue, value := fl.ofInt 1,
                  labelValues := [Interface] } ],
            panic := none }) := by
  have gen : ∀ (peerNames : Directory) (line k f4 f5 f6 : Str) (a b c : F),
      (Fields line)[0]? = some k → (Fields line)[4]? = some f4 →
      (Fields line)[5]? = some f5 → (Fields line)[6]? = some f6 →
      fl.ParseFloat f4 = some a → fl.ParseFloat f5 = some b → fl.ParseFloat f6 = some c →
      ValidString Interface = true → ValidString k = true →
      ValidString (peerNames.get k).peerName = true →
      processLine fl Interface peerNames line
        = { sent := [ { desc := .bytesReceived, valueType := .CounterValue, value := b,
                        labelValues := [Interface, k, (peerNames.get k).peerName] },
                      { desc := .bytesSent, valueType := .CounterValue, value := c,
                        labelValues := [Interface, k, (peerNames.get k).peerName] },
                      { desc := .lasthandshake, valueType := .GaugeValue, value := a,
                        labelValues := [Interface, k, (peerNames.get k).peerName] } ],
            panic := none } := by
    intro peerNames line k f4 f5 f6 a b c h0 h4 h5 h6 p4 p5 p6 hI hk hn
    rw [processLine_eq fl Interface peerNames line k f4 f5 f6 h0 h4 h5 h6 hI hk hn]
    simp [peerMetrics, parseOrZero, p4, p5, p6]
  refine ⟨gen, ?_⟩
  intro p4 p5 p6 hI header hh
  have hg : (Directory.get
      [(str "abc123=", { peerName := str "alice", peerKey := str "abc123=" })]
      (str "abc123=")).peerName = str "alice" := by decide
  have hl := gen
    [(str "abc123=", { peerName := str "alice", peerKey := str "abc123=" })]
    (str "abc123= (none) (none) (none) 1700000000 1024 2048")
    (str "abc123=") (str "1700000000") (str "1024") (str "2048") _ _ _
    (by decide) (by decide) (by decide) (by decide) p4 p5 p6 hI (by decide) (by decide)
  rw [hg] at hl
  have hd : dataLines (header ++
      str "\nabc123= (none) (none) (none) 1700000000 1024 2048\n")
      = [str "abc123= (none) (none) (none) 1700000000 1024 2048", []] := by
    rw [show header ++ str "\nabc123= (none) (none) (none) 1700000000 1024 2048\n"
        = header ++ (chr '\n') ::
            str "abc123= (none) (none) (none) 1700000000 1024 2048\n" from rfl,
      dataLines_first_line _ _ hh]
    decide
  have hne : nonEmptyLines [str "abc123= (none) (none) (none) 1700000000 1024 2048", []]
      = [str "abc123= (none) (none) (none) 1700000000 1024 2048"] := by decide
  have hnp : ∀ l ∈ nonEmptyLines (dataLines (header ++
      str "\nabc123= (none) (none) (none) 1700000000 1024 2048\n")),
      (processLine fl Interface
        [(str "abc123=", { peerName := str "alice", peerKey := str "abc123=" })] l).panic
        = none := by
    rw [hd, hne]
    intro l hl'
    rw [List.mem_singleton.mp hl', hl]
  rw [statusJoiner_of_no_panic fl Interface _ _ hI hnp, hd, hne]
  simp only [List.flatMap_cons, List.flatMap_nil, lineMetrics, hl, List.append_nil,
    List.length_singleton, List.cons_append, List.nil_append]

/-- C9, at the spec's example with the interface `wg0` and a first line as `wg` prints
it. -/
theorem field_mapping_witness :
    processLine natOps (str "wg0")
        [(str "abc123=", { peerName := str "alice", peerKey := str "abc123=" })]
        (str "abc123= (none) (none) (none) 1700000000 1024 2048")
      = { sent := [ { desc := .bytesReceived, valueType := .CounterValue, value := 1024,
                      labelValues := [str "wg0", str "abc123=", str "alice"] },
                    { desc := .bytesSent, valueType := .CounterValue, value := 2048,
                      labelValues := [str "wg0", str "abc123=", str "alice"] },
                    { desc := .lasthandshake, valueType := .GaugeValue,
                      value := 1700000000,
                      labelValues := [str "wg0", str "abc123=", str "alice"] } ],
          panic := none } ∧
    statusJoiner natOps (str "wg0")
        [(str "abc123=", { peerName := str "alice", peerKey := str "abc123=" })]
        { output := str "wg0 51820 off" ++
            str "\nabc123= (none) (none) (none) 1700000000 1024 2048\n",
          failed := false }
      = { sent :=
            [ { desc := .bytesReceived, valueType := .CounterValue, value := 1024,
                labelValues := [str "wg0", str "abc123=", str "alice"] },
              { desc := .bytesSent, valueType := .CounterValue, value := 2048,
                labelValues := [str "wg0", str "abc123=", str "alice"] },
              { desc := .lasthandshake, valueType := .GaugeValue, value := 1700000000,
                labelValues := [str "wg0", str "abc123=", str "alice"] },
              { desc := .counterconfig, valueType := .GaugeValue, value := 1,
                labelValues := [str "wg0"] } ],
          panic := none } :=
  ⟨(field_mapping natOps (str "wg0")).1
      [(str "abc123=", { peerName := str "alice", peerKey := str "abc123=" })]
      (str "abc123= (none) (none) (none) 1700000000 1024 2048")
      (str "abc123=") (str "1700000000") (str "1024") (str "2048") 1700000000 1024 2048
      (by decide) (by decide) (by decide) (by decide) (by decide) (by decide) (by decide)
      (by decide) (by decide) (by decide),
   (field_mapping natOps (str "wg0")).2 (by decide) (by decide) (by decide) (by decide)
      (str "wg0 51820 off") (by decide)⟩

/-- C11: for every line of the dump that has at least seven fields, the three metrics
sent for it, bytes received, bytes sent and last handshake in this order, carry one and
the same list of label values: the configured interface name, field 0 of the line, and
the name the directory holds for field 0. They are sent when these three label values are
valid UTF-8; otherwise the first metric cannot be built and nothing is sent for the
line. -/
theorem label_stability {F : Type} (fl : Float64Ops F) (Interface : Str)
    (peerNames : Directory) (line : Str) (h : 7 ≤ (Fields line).length) :
    ∃ (k : Str) (received sent handshake : F), (Fields line)[0]? = some k ∧
      ((ValidString Interface = true ∧ ValidString k = true ∧
          ValidString (peerNames.get k).peerName = true) →
        processLine fl Interface peerNames line
          = { sent := [ { desc := .bytesReceived, valueType := .CounterValue,
                          value := received,
                          labelValues := [Interface, k, (peerNames.get k).peerName] },
                        { desc := .bytesSent, valueType := .CounterValue, value := sent,
                          labelValues := [Interface, k, (peerNames.get k).peerName] },
                        { desc := .lasthandshake, valueType := .GaugeValue,
                          value := handshake,
                          labelValues := [Interface, k, (peerNames.get k).peerName] } ],
              panic := none }) ∧
      (¬ (ValidString Interface = true ∧ ValidString k = true ∧
          ValidString (peerNames.get k).peerName = true) →
        ∃ v, ValidString v = false ∧
          processLine fl Interface peerNames line
            = { sent := [], panic := some (.invalidLabelValue v) }) := by
  obtain ⟨k, f4, f5, f6, h0, h4, h5, h6⟩ := exists_fields_of_length h
  exact ⟨k, parseOrZero fl f5, parseOrZero fl f6, parseOrZero fl f4, h0,
    fun hv => processLine_eq fl Interface peerNames line k f4 f5 f6 h0 h4 h5 h6
      hv.1 hv.2.1 hv.2.2,
    processLine_invalid fl Interface peerNames line k f4 f5 f6 h0 h4 h5 h6⟩

/-- C11, at a line as `wg show wg0 dump` prints it, with eight fields: the three samples
carry the labels `wg0`, `abc123=`, `alice`. -/
theorem label_stability_witness :
    ∃ received sent handshake : Nat,
      processLine natOps (str "wg0")
          [(str "abc123=", { peerName := str "alice", peerKey := str "abc123=" })]
          (str "abc123= (none) 192.0.2.7:51820 10.0.0.2/32 1700000000 1024 2048 off")
        = { sent := [ { desc := .bytesReceived, valueType := .CounterValue,
                        value := received,
                        labelValues := [str "wg0", str "abc123=", str "alice"] },
                      { desc := .bytesSent, valueType := .CounterValue, value := sent,
                        labelValues := [str "wg0", str "abc123=", str "alice"] },
                      { desc := .lasthandshake, valueType := .GaugeValue,
                        value := handshake,
                        labelValues := [str "wg0", str "abc123=", str "alice"] } ],
            panic := none } := by
  obtain ⟨k, received, sent, handshake, h0, hv, -⟩ := label_stability natOps (str "wg0")
    [(str "abc123=", { peerName := str "alice", peerKey := str "abc123=" })]
    (str "abc123= (none) 192.0.2.7:51820 10.0.0.2/32 1700000000 1024 2048 off") (by decide)
  have hk : k = str "abc123=" := by
    rw [show (Fields
        (str "abc123= (none) 192.0.2.7:51820 10.0.0.2/32 1700000000 1024 2048 off"))[0]?
        = some (str "abc123=") by decide] at h0
    exact (Option.some.inj h0).symm
  subst hk
  exact ⟨received, sent, handshake, hv ⟨by decide, by decide, by decide⟩⟩

/-- C12, as stated, fails: the configuration file holds a name with the byte `0xE9` (an
`é` in Latin-1, not valid UTF-8) and the output has one data line, with eight fields. No
field access is out of range, but the first metric of the line cannot be built: the cycle
ends in a panic and sends neither the three samples nor the summary. -/
theorem dump_parsing_counterexample :
    (∀ l ∈ dataLines (str ("wg0priv wg0pub 51820 off\n" ++
        "abc123= (none) 192.0.2.7:51820 10.0.0.2/32 1700000000 1024 2048 off")),
      l ≠ [] → 7 ≤ (Fields l).length) ∧
    Collect natOps (str "wg0")
        (some [str "[Peer]", str "friendly_name = Jos" ++ [raw 105],
          str "PublicKey = abc123", str "AllowedIPs = 10.0.0.2/32"])
        { output := str ("wg0priv wg0pub 51820 off\n" ++
            "abc123= (none) 192.0.2.7:51820 10.0.0.2/32 1700000000 1024 2048 off"),
          failed := false }
      = { sent := [], panic := some (.invalidLabelValue (str "Jos" ++ [raw 105])) } := by
  decide

/-- C12, amended: when every non-empty line after the first line of the output has at
least seven fields, no field access is out of range; and when, moreover, the interface
name, the field 0 of each such line and the name the directory holds for it are valid
UTF-8, the Status Joiner ends without panic and sends exactly 3 N per-peer metrics
followed by the one summary record (descriptor `counterconfig`, a gauge of value N,
labelled with the interface name), N being the number of non-empty lines after the first;
the same holds for the whole cycle once the directory is built. -/
theorem dump_parsing_safe {F : Type} (fl : Float64Ops F) (Interface : Str)
    (peerNames : Directory) (output : Str) (h : SevenFields (dataLines output)) :
    (∀ i n : Nat,
      (statusJoiner fl Interface peerNames { output := output, failed := false }).panic
        ≠ some (.indexOutOfRange i n)) ∧
    (validLabels Interface peerNames (dataLines output) = true →
      ∃ ps : List (Metric F),
        ps.length = 3 * (nonEmptyLines (dataLines output)).length ∧
        (∀ m ∈ ps, m.desc ≠ .counterconfig) ∧
        statusJoiner fl Interface peerNames { output := output, failed := false }
          = { sent := ps ++ [{ desc := .counterconfig, valueType := .GaugeValue,
                               value := fl.ofInt (nonEmptyLines (dataLines output)).length,
                               labelValues := [Interface] }],
              panic := none } ∧
        ∀ lines, buildDirectory lines = .ok peerNames →
          Collect fl Interface (some lines) { output := output, failed := false }
            = { sent := ps ++ [{ desc := .counterconfig, valueType := .GaugeValue,
                                 value := fl.ofInt (nonEmptyLines (dataLines output)).length,
                                 labelValues := [Interface] }],
                panic := none }) := by
  refine ⟨statusJoiner_no_index_panic fl Interface peerNames output h, ?_⟩
  intro hv
  have hnp := no_panic_of_valid fl Interface peerNames _ h hv
  obtain ⟨f1, f2, -, -⟩ := flatMap_lineMetrics_facts fl Interface peerNames _ hnp
  have hj := statusJoiner_of_no_panic fl Interface peerNames output
    (validLabels_interface hv) hnp
  exact ⟨_, f2, f1, hj, fun lines hb => by
    rw [collect_some_eq fl Interface lines peerNames _ hb, hj]⟩

/-- C12, amended, at an output with two data lines, an empty line and an unparsable
field: six samples, then the summary with count 2. -/
theorem dump_parsing_safe_witness :
    (∀ i n : Nat,
      (statusJoiner natOps (str "wg0") []
        { output := str "hdr\na= - - - 1 2 3 off\n\nb= - - - x 5 6 25\n",
          failed := false }).panic ≠ some (.indexOutOfRange i n)) ∧
    ∃ ps : List (Metric Nat),
      ps.length = 3 * (nonEmptyLines (dataLines
        (str "hdr\na= - - - 1 2 3 off\n\nb= - - - x 5 6 25\n"))).length ∧
      (∀ m ∈ ps, m.desc ≠ .counterconfig) ∧
      statusJoiner natOps (str "wg0") []
          { output := str "hdr\na= - - - 1 2 3 off\n\nb= - - - x 5 6 25\n",
            failed := false }
        = { sent := ps ++ [{ desc := .counterconfig, valueType := .GaugeValue, value := 2,
                             labelValues := [str "wg0"] }],
            panic := none } ∧
      ∀ lines, buildDirectory lines = .ok [] →
        Collect natOps (str "wg0") (some lines)
            { output := str "hdr\na= - - - 1 2 3 off\n\nb= - - - x 5 6 25\n",
              failed := false }
          = { sent := ps ++ [{ desc := .counterconfig, valueType := .GaugeValue,
                               value := 2, labelValues := [str "wg0"] }],
              panic := none } :=
  ⟨(dump_parsing_safe natOps (str "wg0") []
      (str "hdr\na= - - - 1 2 3 off\n\nb= - - - x 5 6 25\n")
      (by unfold SevenFields; decide)).1,
   (dump_parsing_safe natOps (str "wg0") []
      (str "hdr\na= - - - 1 2 3 off\n\nb= - - - x 5 6 25\n")
      (by unfold SevenFields; decide)).2 (by decide)⟩

/-- C13, as stated, fails: on `friendly_name = alice=bob`, handled by the friendly-name
branch, the pending name becomes `alice`, not the trimmed text after the first `=`, which
is `alice=bob`; and a line of that branch without `=` ends in a panic, with no pending
name afterwards. -/
theorem friendly_name_counterexample :
    stepLine BuilderState.init (str "friendly_name = alice=bob")
      = .ok { BuilderState.init with peername := str "alice" } ∧
    TrimSpace (lineValue (str "friendly_name = alice=bob")) = (str "alice=bob") ∧
    stepLine BuilderState.init (str "# friendly_name: alice")
      = .error (.indexOutOfRange 1 1) := by
  decide

/-- C13, amended: for every line that contains an `=` and is handled by the friendly-name
branch (it contains `friendly_name`, it does not contain `AllowedIPs`, and it is not taken
as a block-opening `[Peer]` line), processing succeeds and the pending name becomes the
trimmed text between the first `=` of the line and its next `=` (the end of the line when
there is none), whatever the previous pending name; flag, key variable and directory are
unchanged. When the text after the first `=` has no further `=`, that is the trimmed text
of everything after the first `=`. -/
theorem friendly_name_extraction (s : BuilderState) (line : Str)
    (hN : Contains line kwFriendlyName = true) (hA : Contains line kwAllowedIPs = false)
    (hP : ¬ (Contains line kwPeer = true ∧ s.inBlock = false)) (hE : (chr '=') ∈ line) :
    stepLine s line = .ok { s with peername := TrimSpace (secondPiece line) } ∧
    ((chr '=') ∉ lineValue line → secondPiece line = lineValue line) := by
  refine ⟨stepLine_name_branch s line ?_ hA hN hE, secondPiece_of_no_further line⟩
  cases hb : s.inBlock with
  | true => exact Or.inl rfl
  | false =>
    right
    cases hp : Contains line kwPeer with
    | false => rfl
    | true => exact absurd ⟨hp, hb⟩ hP

theorem friendly_name_extraction_witness :
    stepLine { inBlock := true, pubKey := [], peername := str "old", peerNames := [] }
        (str "# friendly_name =  alice laptop  = home")
      = .ok { ({ inBlock := true, pubKey := [], peername := str "old", peerNames := [] } :
                BuilderState) with
              peername := TrimSpace (secondPiece
                (str "# friendly_name =  alice laptop  = home")) } ∧
    ((chr '=') ∉ lineValue (str "# friendly_name =  alice laptop  = home") →
      secondPiece (str "# friendly_name =  alice laptop  = home")
        = lineValue (str "# friendly_name =  alice laptop  = home")) :=
  friendly_name_extraction
    { inBlock := true, pubKey := [], peername := str "old", peerNames := [] }
    (str "# friendly_name =  alice laptop  = home") (by decide) (by decide) (by decide)
    (by decide)

/-- C14, as stated, fails: with the flag true, a line that contains `[Peer]` and also
`PublicKey` is handled by the `PublicKey` branch and adds a directory entry. -/
theorem repeated_marker_counterexample :
    Contains (str "# [Peer] PublicKey = abc123") kwPeer = true ∧
    stepLine { inBlock := true, pubKey := [], peername := str "bob", peerNames := [] }
        (str "# [Peer] PublicKey = abc123")
      = .ok { inBlock := true, pubKey := str "abc123=", peername := str "bob",
              peerNames := [((str "abc123="),
                { peerName := str "bob", peerKey := str "abc123=" })] } := by
  decide

/-- C14, amended: for every builder state whose flag is true and every line that contains
`[Peer]` and none of `AllowedIPs`, `friendly_name`, `PublicKey`, processing the line
leaves the whole state (flag, pending name, directory, key variable) unchanged. -/
theorem repeated_marker_noop (s : BuilderState) (line : Str) (hin : s.inBlock = true)
    (_hP : Contains line kwPeer = true)
    (hA : Contains line kwAllowedIPs = false) (hN : Contains line kwFriendlyName = false)
    (hK : Contains line kwPublicKey = false) :
    stepLine s line = .ok s :=
  stepLine_marker_inside s line hin hA hN hK

theorem repeated_marker_noop_witness :
    stepLine { inBlock := true, pubKey := str "k=", peername := str "bob",
               peerNames := [(str "k=", { peerName := str "bob", peerKey := str "k=" })] }
        (str "[Peer]")
      = .ok { inBlock := true, pubKey := str "k=", peername := str "bob",
              peerNames := [((str "k="),
                { peerName := str "bob", peerKey := str "k=" })] } :=
  repeated_marker_noop
    { inBlock := true, pubKey := str "k=", peername := str "bob",
      peerNames := [(str "k=", { peerName := str "bob", peerKey := str "k=" })] }
    (str "[Peer]") rfl (by decide) (by decide) (by decide) (by decide)

/-- C15, as stated, fails: a name with an `=` in it is cut at that `=` (both keys map to
`a`, not to `a=b`), and a key written with an `=` in it is stored under its first piece
(under `abc=`, nothing under `abc=x=`). -/
theorem carry_over_counterexample :
    buildDirectory [str "[Peer]", str "friendly_name = a=b", str "PublicKey = k1",
        str "[Peer]", str "PublicKey = k2"]
      = .ok [(str "k1=", { peerName := str "a", peerKey := str "k1=" }),
             (str "k2=", { peerName := str "a", peerKey := str "k2=" })] ∧
    buildDirectory [str "[Peer]", str "friendly_name = n", str "PublicKey = abc=x",
        str "[Peer]", str "PublicKey = k2"]
      = .ok [(str "abc=", { peerName := str "n", peerKey := str "abc=" }),
             (str "k2=", { peerName := str "n", peerKey := str "k2=" })] := by
  decide

/-- C15, amended: a line that contains `[Peer]` and none of the other three keywords never
changes the pending name (nor the directory); and for every name `n` without `=` and
without `AllowedIPs`, and all key bodies `k1`, `k2` without `=`, white space, `AllowedIPs`
and `friendly_name`, the five lines `[Peer]`, `friendly_name = n`, `PublicKey = k1`,
`[Peer]`, `PublicKey = k2` build a directory that maps both `k1=` and `k2=` to the trimmed
`n`: the name of the first block carries over into the second. -/
theorem carry_over (n k1 k2 : Str)
    (hn1 : (chr '=') ∉ n) (hn2 : Contains n kwAllowedIPs = false)
    (h11 : (chr '=') ∉ k1) (h12 : ∀ c ∈ k1, isSpace c = false)
    (h14 : Contains k1 kwAllowedIPs = false) (h15 : Contains k1 kwFriendlyName = false)
    (h21 : (chr '=') ∉ k2) (h22 : ∀ c ∈ k2, isSpace c = false)
    (h24 : Contains k2 kwAllowedIPs = false) (h25 : Contains k2 kwFriendlyName = false) :
    (∀ (s : BuilderState) (line : Str), Contains line kwPeer = true →
      Contains line kwAllowedIPs = false → Contains line kwFriendlyName = false →
      Contains line kwPublicKey = false →
      ∃ s', stepLine s line = .ok s' ∧ s'.peername = s.peername ∧
        s'.peerNames = s.peerNames) ∧
    ∃ d, buildDirectory [str "[Peer]", (str "friendly_name = ") ++ n,
          (str "PublicKey = ") ++ k1, str "[Peer]", (str "PublicKey = ") ++ k2]
        = .ok d ∧
      d.get (k1 ++ str "=") = { peerName := TrimSpace n, peerKey := k1 ++ str "=" } ∧
      d.get (k2 ++ str "=") = { peerName := TrimSpace n, peerKey := k2 ++ str "=" } := by
  constructor
  · intro s line hP hA hN hK
    cases hb : s.inBlock with
    | true => exact ⟨s, stepLine_marker_inside s line hb hA hN hK, rfl, rfl⟩
    | false => exact ⟨{ s with inBlock := true }, by simp [stepLine, hP, hb], rfl, rfl⟩
  · have c0 : keywordCount kwPeer ≤ 1 := by decide
    have c1 : Contains kwPeer kwPeer = true := by decide
    have e1 : stepLine BuilderState.init kwPeer
        = .ok { inBlock := true, pubKey := [], peername := [], peerNames := [] } :=
      stepLine_opener BuilderState.init kwPeer c1 c0
    have e2 : stepLine { inBlock := true, pubKey := [], peername := [], peerNames := [] }
          ((str "friendly_name = ") ++ n)
        = .ok { inBlock := true, pubKey := [], peername := TrimSpace n, peerNames := [] } :=
      stepLine_name_line _ n rfl hn1 hn2
    have e3 : stepLine
          { inBlock := true, pubKey := [], peername := TrimSpace n, peerNames := [] }
          ((str "PublicKey = ") ++ k1)
        = .ok { inBlock := true, pubKey := k1 ++ str "=", peername := TrimSpace n,
                peerNames := Directory.set [] (k1 ++ str "=")
                  { peerName := TrimSpace n, peerKey := k1 ++ str "=" } } :=
      stepLine_key_line _ k1 rfl h11 h12 h14 h15
    have e4 : stepLine
          { inBlock := true, pubKey := k1 ++ str "=", peername := TrimSpace n,
            peerNames := Directory.set [] (k1 ++ str "=")
              { peerName := TrimSpace n, peerKey := k1 ++ str "=" } } kwPeer
        = .ok { inBlock := true, pubKey := k1 ++ str "=", peername := TrimSpace n,
                peerNames := Directory.set [] (k1 ++ str "=")
                  { peerName := TrimSpace n, peerKey := k1 ++ str "=" } } :=
      stepLine_opener _ kwPeer c1 c0
    have e5 : stepLine
          { inBlock := true, pubKey := k1 ++ str "=", peername := TrimSpace n,
            peerNames := Directory.set [] (k1 ++ str "=")
              { peerName := TrimSpace n, peerKey := k1 ++ str "=" } }
          ((str "PublicKey = ") ++ k2)
        = .ok { inBlock := true, pubKey := k2 ++ str "=", peername := TrimSpace n,
                peerNames := (Directory.set [] (k1 ++ str "=")
                  { peerName := TrimSpace n, peerKey := k1 ++ str "=" }).set
                    (k2 ++ str "=")
                    { peerName := TrimSpace n, peerKey := k2 ++ str "=" } } :=
      stepLine_key_line _ k2 rfl h21 h22 h24 h25
    refine ⟨(Directory.set [] (k1 ++ str "=")
        { peerName := TrimSpace n, peerKey := k1 ++ str "=" }).set (k2 ++ str "=")
        { peerName := TrimSpace n, peerKey := k2 ++ str "=" }, ?_, ?_, ?_⟩
    · change buildDirectory [kwPeer, (str "friendly_name = ") ++ n,
          (str "PublicKey = ") ++ k1, kwPeer, (str "PublicKey = ") ++ k2] = _
      rw [buildDirectory, runLines_cons_ok _ e1, runLines_cons_ok _ e2,
        runLines_cons_ok _ e3, runLines_cons_ok _ e4, runLines_cons_ok _ e5]
      rfl
    · rw [Directory.get_set]
      by_cases hk : k2 ++ str "=" = k1 ++ str "="
      · rw [if_pos hk, hk]
      · rw [if_neg hk]
        exact Directory.get_set_self _ _ _
    · exact Directory.get_set_self _ _ _

theorem carry_over_witness :
    (∀ (s : BuilderState) (line : Str), Contains line kwPeer = true →
      Contains line kwAllowedIPs = false → Contains line kwFriendlyName = false →
      Contains line kwPublicKey = false →
      ∃ s', stepLine s line = .ok s' ∧ s'.peername = s.peername ∧
        s'.peerNames = s.peerNames) ∧
    ∃ d, buildDirectory [str "[Peer]", (str "friendly_name = ") ++ str "alice ",
          (str "PublicKey = ") ++ str "abc123", str "[Peer]",
          (str "PublicKey = ") ++ str "def456"]
        = .ok d ∧
      d.get ((str "abc123") ++ str "=")
        = { peerName := TrimSpace (str "alice "),
            peerKey := (str "abc123") ++ str "=" } ∧
      d.get ((str "def456") ++ str "=")
        = { peerName := TrimSpace (str "alice "),
            peerKey := (str "def456") ++ str "=" } :=
  carry_over (str "alice ") (str "abc123") (str "def456") (by decide) (by decide)
    (by decide) (by decide) (by decide) (by decide) (by decide) (by decide) (by decide)
    (by decide)

/-- C16, as stated, fails: with an interface name that is not valid UTF-8 (here `wg`
followed by the byte `0xE9`) the summary metric cannot be built, so the empty output
yields no record at all and the cycle ends in a panic. -/
theorem empty_output_counterexample :
    statusJoiner natOps (str "wg" ++ [raw 105]) [] { output := [], failed := false }
      = { sent := [], panic := some (.invalidLabelValue (str "wg" ++ [raw 105])) } ∧
    Collect natOps (str "wg" ++ [raw 105]) (some []) { output := [], failed := false }
      = { sent := [], panic := some (.invalidLabelValue (str "wg" ++ [raw 105])) } := by
  decide

/-- C16, amended: the first line of the output is never processed: the lines the loop
ranges over are those after the first newline, so the result of the Status Joiner does not
depend on the first line (be it empty or a valid seven-field peer row); an empty line
among the lines of the loop is skipped, the result being that of the loop without it; and
when the interface name is valid UTF-8, an output that is one line only, and in particular
the empty output, yields exactly one record, the summary (descriptor `counterconfig`, a
gauge of value 0, labelled with the interface name), and ends without panic, also for the
whole cycle once the directory is built. -/
theorem first_and_empty_lines_discarded {F : Type} (fl : Float64Ops F) (Interface : Str)
    (peerNames : Directory) :
    (∀ first rest : Str, (chr '\n') ∉ first →
      dataLines (first ++ (chr '\n') :: rest) = Split (chr '\n') rest ∧
      statusJoiner fl Interface peerNames
          { output := first ++ (chr '\n') :: rest, failed := false }
        = statusJoiner fl Interface peerNames
            { output := (chr '\n') :: rest, failed := false }) ∧
    (∀ xs ys : List Str,
      rangeLoop fl Interface peerNames (xs ++ [] :: ys)
        = rangeLoop fl Interface peerNames (xs ++ ys)) ∧
    (ValidString Interface = true →
      (∀ first : Str, (chr '\n') ∉ first →
        statusJoiner fl Interface peerNames { output := first, failed := false }
          = { sent := [{ desc := .counterconfig, valueType := .GaugeValue,
                         value := fl.ofInt 0, labelValues := [Interface] }],
              panic := none }) ∧
      statusJoiner fl Interface peerNames { output := [], failed := false }
        = { sent := [{ desc := .counterconfig, valueType := .GaugeValue,
                       value := fl.ofInt 0, labelValues := [Interface] }],
            panic := none } ∧
      (∀ lines, buildDirectory lines = .ok peerNames →
        Collect fl Interface (some lines) { output := [], failed := false }
          = { sent := [{ desc := .counterconfig, valueType := .GaugeValue,
                         value := fl.ofInt 0, labelValues := [Interface] }],
              panic := none })) := by
  refine ⟨?_, rangeLoop_skip_empty fl Interface peerNames, ?_⟩
  · intro first rest h
    refine ⟨dataLines_first_line first rest h, ?_⟩
    apply statusJoiner_eq_of_dataLines
    rw [dataLines_first_line first rest h]
    exact (dataLines_first_line [] rest (List.not_mem_nil _)).symm
  · intro hI
    have single : ∀ first : Str, (chr '\n') ∉ first →
        statusJoiner fl Interface peerNames { output := first, failed := false }
          = { sent := [{ desc := .counterconfig, valueType := .GaugeValue,
                         value := fl.ofInt 0, labelValues := [Interface] }],
              panic := none } := by
      intro first h
      have hd := dataLines_single_line first h
      unfold dataLines at hd
      simp only [statusJoiner, hd, rangeLoop, MustNewConstMetric_summary, hI]
      rfl
    refine ⟨single, single [] (List.not_mem_nil _), ?_⟩
    intro lines hb
    rw [collect_some_eq fl Interface lines peerNames _ hb]
    exact single [] (List.not_mem_nil _)

/-- C16, amended, at an output whose first line is the valid peer row of the spec's
example: followed by an empty line and a data line, it counts as little as an empty first
line; alone, it yields only the summary with count 0. -/
theorem first_and_empty_lines_discarded_witness :
    dataLines (str "abc123= (none) (none) (none) 1700000000 1024 2048" ++
        (chr '\n') :: str "\nk= - - - 1 2 3\n")
      = Split (chr '\n') (str "\nk= - - - 1 2 3\n") ∧
    statusJoiner natOps (str "wg0") []
        { output := str "abc123= (none) (none) (none) 1700000000 1024 2048" ++
            (chr '\n') :: str "\nk= - - - 1 2 3\n", failed := false }
      = statusJoiner natOps (str "wg0") []
          { output := (chr '\n') :: str "\nk= - - - 1 2 3\n", failed := false } ∧
    statusJoiner natOps (str "wg0") []
        { output := str "abc123= (none) (none) (none) 1700000000 1024 2048",
          failed := false }
      = { sent := [{ desc := .counterconfig, valueType := .GaugeValue, value := 0,
                     labelValues := [str "wg0"] }],
          panic := none } :=
  ⟨((first_and_empty_lines_discarded natOps (str "wg0") []).1
      (str "abc123= (none) (none) (none) 1700000000 1024 2048")
      (str "\nk= - - - 1 2 3\n") (by decide)).1,
   ((first_and_empty_lines_discarded natOps (str "wg0") []).1
      (str "abc123= (none) (none) (none) 1700000000 1024 2048")
      (str "\nk= - - - 1 2 3\n") (by decide)).2,
   ((first_and_empty_lines_discarded natOps (str "wg0") []).2.2 (by decide)).1
      (str "abc123= (none) (none) (none) 1700000000 1024 2048") (by decide)⟩

/-- C18: for every configuration in which no line containing `[Peer]` also contains
`AllowedIPs`, `friendly_name` or `PublicKey`, the builder gives the same result (the same
directory, or the same panic) on the configuration and on the configuration with all lines
containing `[Peer]` deleted; and a line without `[Peer]` acts on the key variable, the
pending name and the directory in the same way whether the flag is set or not. -/
theorem flag_does_not_gate (lines : List Str)
    (h : ∀ l ∈ lines, Contains l kwPeer = true →
      Contains l kwAllowedIPs = false ∧ Contains l kwFriendlyName = false ∧
        Contains l kwPublicKey = false) :
    buildDirectory lines = buildDirectory (withoutPeerLines lines) ∧
    ∀ (s t : BuilderState) (l : Str), Contains l kwPeer = false → s.content = t.content →
      (stepLine s l).map BuilderState.content = (stepLine t l).map BuilderState.content := by
  refine ⟨?_, fun s t l hP hst => stepLine_content s t l hP hst⟩
  rw [buildDirectory_eq_map, buildDirectory_eq_map,
    runLines_withoutPeerLines lines h BuilderState.init BuilderState.init rfl]

theorem flag_does_not_gate_witness :
    buildDirectory [str "friendly_name = alice", str "PublicKey = abc123",
        str "[Peer]", str "AllowedIPs = 10.0.0.1/32", str "# [Peer] bob",
        str "PublicKey = def456"]
      = buildDirectory (withoutPeerLines [str "friendly_name = alice",
          str "PublicKey = abc123", str "[Peer]", str "AllowedIPs = 10.0.0.1/32",
          str "# [Peer] bob", str "PublicKey = def456"]) ∧
    ∀ (s t : BuilderState) (l : Str), Contains l kwPeer = false → s.content = t.content →
      (stepLine s l).map BuilderState.content = (stepLine t l).map BuilderState.content :=
  flag_does_not_gate [str "friendly_name = alice", str "PublicKey = abc123",
    str "[Peer]", str "AllowedIPs = 10.0.0.1/32", str "# [Peer] bob",
    str "PublicKey = def456"] (by decide)

end WgExporter
